import Mathlib

/-!
Verification development for the `json-schema` crate (draft-06 JSON Schema
compiler and validator).  The definitions below are a shallow embedding of
the final version of the crate: `src/schema/parse.rs` (`Context::parse`),
`src/schema/context.rs` (`Context`), `src/schema/condition.rs`
(`Condition`, `Type`, `RegexWrapper`) and `src/errors.rs`.

Modelling conventions, fixed once here:
* JSON numbers (`serde_json::Number`) are modelled as exact fractions
  (integer numerator, natural denominator); the `PosInt`/`NegInt`/`Float`
  variant distinction of serde is not modelled, and numeric comparison is
  by cross multiplication.
* `url::Url` is modelled as the `String` rendering of the URL.  The
  external operations of the `url` and `regex` crates (`Url::parse`,
  `Url::join`, regular-expression compilation and matching) are collected
  in an `Oracles` record of oracles that every function takes as a parameter;
  theorems quantify over it.
* `push_uri` (fragment/JSON-pointer manipulation, `src/schema/parse.rs`)
  is implemented concretely, without percent decoding.
* Panics (`unimplemented!`, `panic!`, `.expect`, the `Ord` panic of
  `RegexWrapper`) are a distinct outcome constructor, and recursion that
  the Rust code performs without a bound is given explicit fuel, with a
  distinct out-of-fuel outcome.
* Errors returned through `?` do not roll back the `&mut Context`, so the
  error outcomes carry the context reached at the moment of failure.
-/

/-- JSON number, standing in for `serde_json::Number`: an exact fraction
`num / den`.  Documents built in this file use `den = 1`. -/
structure JNum where
  num : Int
  den : Nat
  deriving DecidableEq

/-- Numeric order on JSON numbers, by cross multiplication. -/
def JNum.le (a b : JNum) : Bool := a.num * (b.den : Int) ≤ b.num * (a.den : Int)

/-- Strict numeric order on JSON numbers. -/
def JNum.lt (a b : JNum) : Bool := a.num * (b.den : Int) < b.num * (a.den : Int)

/-- Model of `serde_json::Number::as_u64`. -/
def JNum.asU64 (a : JNum) : Option Nat :=
  if a.den = 1 ∧ 0 ≤ a.num ∧ a.num < 2 ^ 64 then some a.num.toNat else none

/-- Model of `Number::is_u64 || Number::is_i64` (the integer test used by
`Type::type_of` in `src/schema/condition.rs`). -/
def JNum.isIntegral (a : JNum) : Bool :=
  a.den = 1 && (-(2 ^ 63) ≤ a.num) && (a.num < 2 ^ 64)

/-- JSON value (`serde_json::Value`).  Objects are association lists; the
`serde_json` object map (a `BTreeMap` under the crate's default features)
iterates in ascending key order, so concrete documents in this file list
their members in ascending key order. -/
inductive Value where
  | null
  | bool (b : Bool)
  | num (n : JNum)
  | str (s : String)
  | arr (items : List Value)
  | obj (members : List (String × Value))

/-- Model of `serde_json::Map::get`: first binding of the key. -/
def Value.lookup (members : List (String × Value)) (k : String) : Option Value :=
  match members with
  | [] => none
  | (k', v) :: rest => if k' = k then some v else Value.lookup rest k

/-- URLs are modelled by their string rendering. -/
abbrev Url := String

/-- The draft-06 metaschema URI (`METASCHEMA_URI` in `src/schema.rs`). -/
def METASCHEMA_URI : Url := "http://json-schema.org/draft-06/schema#"

/-- External oracles: the operations this crate delegates to the `url` and
`regex` crates.  Theorems are proved for every choice of oracles. -/
structure Oracles where
  urlParse : String → Option Url
  urlJoin : Url → String → Option Url
  regexCompilable : String → Bool
  regexMatch : String → String → Bool

/-- Model of `url::Url::fragment`: the part after the first `#`, if any. -/
def fragChars : List Char → Option (List Char)
  | [] => none
  | '#' :: rest => some rest
  | _ :: rest => fragChars rest

/-- The part of a URL before the first `#`. -/
def baseChars : List Char → List Char
  | [] => []
  | '#' :: _ => []
  | c :: rest => c :: baseChars rest

/-- JSON-pointer segment escaping (`~` → `~0`, `/` → `~1`), as rendered by
the `json_pointer` crate's `ToString`. -/
def escapeSeg : List Char → List Char
  | [] => []
  | '~' :: rest => '~' :: '0' :: escapeSeg rest
  | '/' :: rest => '~' :: '1' :: escapeSeg rest
  | c :: rest => c :: escapeSeg rest

/-- JSON-pointer segment unescaping (`~0` → `~`, `~1` → `/`). -/
def unescapeSeg : List Char → List Char
  | [] => []
  | '~' :: '0' :: rest => '~' :: unescapeSeg rest
  | '~' :: '1' :: rest => '/' :: unescapeSeg rest
  | c :: rest => c :: unescapeSeg rest

/-- Worker for `splitSegs`: accumulates the current segment in reverse. -/
def splitSegsGo : List Char → List Char → List String
  | [], acc => [⟨unescapeSeg acc.reverse⟩]
  | '/' :: rest, acc => ⟨unescapeSeg acc.reverse⟩ :: splitSegsGo rest []
  | c :: rest, acc => splitSegsGo rest (c :: acc)

/-- Splits the character list at every `/`, unescaping each segment. -/
def splitSegs (cs : List Char) : List String :=
  splitSegsGo cs []

/-- Model of `str::parse::<JsonPointer<_, _>>`: `""` parses to the root
pointer, `/a/b` to its segments, a `#`-prefixed URI representation is
accepted (without percent decoding), anything else fails. -/
def parsePointer (s : String) : Option (List String) :=
  match s.data with
  | [] => some []
  | '/' :: rest => some (splitSegs rest)
  | '#' :: [] => some []
  | '#' :: '/' :: rest => some (splitSegs rest)
  | _ => none

/-- Renders a JSON pointer: each segment is preceded by `/` and escaped. -/
def ptrToString (segs : List String) : String :=
  ⟨(segs.map (fun s => '/' :: escapeSeg s.data)).flatten⟩

/-- Model of `push_uri` (`src/schema/parse.rs`): read the fragment, parse it
as a JSON pointer defaulting to the pointer `/`, append `component`, and
write the result back as the fragment. -/
def pushUri (uri : Url) (component : String) : Url :=
  let ptr := ((fragChars (String.data uri)).bind (fun f => parsePointer ⟨f⟩)).getD [""]
  let ptr := ptr ++ [component]
  ⟨baseChars (String.data uri) ++ '#' :: (ptrToString ptr).data⟩

example : pushUri "http://x/s" "allOf" = "http://x/s#//allOf" := rfl
example : pushUri "http://x/s#//allOf" "0" = "http://x/s#//allOf/0" := rfl

/-- The type of a JSON value (`Type` in `src/schema/condition.rs`; `Type`
is a reserved word in Lean, hence the name `Ty`). -/
inductive Ty where
  | null
  | boolean
  | number
  | integer
  | string
  | array
  | object
  deriving DecidableEq

/-- Model of `Type::from_string` (`src/schema/condition.rs`). -/
def Ty.from_string (s : String) : Option Ty :=
  match s with
  | "null" => some Ty.null
  | "boolean" => some Ty.boolean
  | "number" => some Ty.number
  | "integer" => some Ty.integer
  | "string" => some Ty.string
  | "array" => some Ty.array
  | "object" => some Ty.object
  | _ => none

/-- Model of `Type::type_of` (`src/schema/condition.rs`). -/
def Ty.type_of (t : Ty) (val : Value) : Bool :=
  match t, val with
  | Ty.null, Value.null => true
  | Ty.boolean, Value.bool _ => true
  | Ty.number, Value.num _ => true
  | Ty.integer, Value.num n => n.isIntegral
  | Ty.string, Value.str _ => true
  | Ty.array, Value.arr _ => true
  | Ty.object, Value.obj _ => true
  | _, _ => false

/-- A compiled regular expression (`RegexWrapper` in
`src/schema/condition.rs`), identified by its source pattern, which is how
the crate's `PartialEq for RegexWrapper` compares it. -/
structure RegexWrapper where
  pattern : String
  deriving DecidableEq

/-- A single constraint put on a value by a schema (`Condition` in
`src/schema/condition.rs`); nested schemas are stored as URLs into the
`Context`.  The `Type` constructor of the source is named `TypeCond` here
because `Type` is reserved in Lean. -/
inductive Condition where
  | MultipleOf (n : Nat)
  | Maximum (n : JNum)
  | ExclusiveMaximum (n : JNum)
  | Minimum (n : JNum)
  | ExclusiveMinimum (n : JNum)
  | MaxLength (n : Nat)
  | MinLength (n : Nat)
  | Pattern (re : RegexWrapper)
  | Items (schemas : List Url) (additional : Option Url)
  | MaxItems (n : Nat)
  | MinItems (n : Nat)
  | UniqueItems (b : Bool)
  | Contains (u : Url)
  | MaxProperties (n : Nat)
  | MinProperties (n : Nat)
  | Required (names : List String)
  | Properties (props : List (String × Url)) (patterns : List (RegexWrapper × Url))
      (additional : Option Url)
  | Dependencies (deps : List (String × (String ⊕ Url)))
  | PropertyNames (u : Url)
  | Enum (vs : List Value)
  | Const (v : Value)
  | TypeCond (ts : List Ty)
  | AllOf (us : List Url)
  | AnyOf (us : List Url)
  | OneOf (us : List Url)
  | Not (u : Url)

/-- Model of `Condition::priority` (`src/schema/condition.rs`, lines
135-153): `Type` is 0; `ExclusiveMaximum`, `ExclusiveMinimum`,
`MaxLength`, `Maximum`, `MinLength`, `Minimum` and `Required` are 10;
`Properties` is 20; `AllOf` and `AnyOf` are 100; everything else falls
through to the default arm and is 1000. -/
def Condition.priority (c : Condition) : Nat :=
  match c with
  | Condition.TypeCond _ => 0
  | Condition.ExclusiveMaximum _ => 10
  | Condition.ExclusiveMinimum _ => 10
  | Condition.MaxLength _ => 10
  | Condition.Maximum _ => 10
  | Condition.MinLength _ => 10
  | Condition.Minimum _ => 10
  | Condition.Required _ => 10
  | Condition.Properties _ _ _ => 20
  | Condition.AllOf _ => 100
  | Condition.AnyOf _ => 100
  | _ => 1000

/-- Stable insertion into a list sorted by ascending priority: the new
condition goes before the first element whose priority is not smaller, so
that among equal priorities earlier source conditions stay first. -/
def insertCond (c : Condition) : List Condition → List Condition
  | [] => [c]
  | d :: rest =>
    if d.priority < c.priority then d :: insertCond c rest else c :: d :: rest

/-- Model of `conditions.sort_by_key(|c| c.priority())`
(`src/schema/parse.rs`, line 268).  Rust's `sort_by_key` is a stable sort,
and a stable sort by a fixed key function is extensionally unique, so this
stable insertion sort computes the same list. -/
def sortConditions : List Condition → List Condition
  | [] => []
  | c :: rest => insertCond c (sortConditions rest)

/-- Compile-time error (`FromValueError` in `src/errors.rs`).  Foreign
error payloads (`regex::Error`, `url::ParseError`) are dropped. -/
inductive FromValueError where
  | BadPattern (json : Value)
  | InvalidId (json : Value) (id : String)
  | InvalidKeywordType (json : Value) (kw : String) (val : Value)
  | InvalidKeywordValue (json : Value) (kw : String) (val : Value)
  | InvalidSchemaType (json : Value)
  | MetaschemaFailedToValidate
  | SubschemaUsesSchemaKeyword (json : Value)
  | UnknownSchemaVersion (json : Value) (ver : String)
  | URIConflict (json : Value) (uri : Url)

/-- Validation-time error.  `ConditionFailed` and `NoValuesPass` are the
variants of `ValidationError` in `src/errors.rs`.  Modelled from the spec:
the `BadReference(uri)` variant (§7 of the spec) belongs to the revision of
`src/errors.rs` that matches `src/schema/condition.rs`, which constructs
`ValidationError::BadReference`; that revision is not part of the
snapshot. -/
inductive ValidationError where
  | ConditionFailed (c : Condition)
  | NoValuesPass (v : Value)
  | BadReference (u : Url)

/-- The validation logic of a schema node (`Validator` in the final
`src/schema/mod.rs`; the identical enum appears at lines 230-243 of the
superseded `src/schema.rs`). -/
inductive Validator where
  | Anything
  | Conditions (cs : List Condition)
  | Nothing
  | Reference (u : Url)

/-- The data stored for one schema node (`JsonSchemaInner`): exactly the
fields `Context::parse` constructs at `src/schema/parse.rs` lines
274-278. -/
structure JsonSchemaInner where
  description : Option String
  title : Option String
  validator : Validator

/-- The registry (`Context` in `src/schema/context.rs`): a map from URL to
schema node, modelled as a function so that `put` is functional update. -/
def Context := Url → Option JsonSchemaInner

/-- The empty registry. -/
def Context.empty : Context := fun _ => none

/-- Model of `Context::put` (`src/schema/context.rs` lines 49-51):
`BTreeMap::insert`, replacing any existing entry. -/
def Context.put (ctx : Context) (uri : Url) (s : JsonSchemaInner) : Context :=
  fun x => if x = uri then some s else ctx x

/-- Outcome of `Context::get` (`src/schema/context.rs` lines 34-46): for
the metaschema URI the source hits `unimplemented!()`; otherwise the map is
consulted. -/
inductive GetOut where
  | found (s : JsonSchemaInner)
  | missing
  | panic

/-- Model of `Context::get`. -/
def Context.get (ctx : Context) (uri : Url) : GetOut :=
  if uri = METASCHEMA_URI then GetOut.panic
  else match ctx uri with
    | some s => GetOut.found s
    | none => GetOut.missing

/-- Outcome of a compile step.  Rust's `?` operator does not roll back
`&mut self`, so every outcome carries the context reached so far; `panic`
models `unimplemented!()`/`panic!`, and `fuelOut` is the artificial
out-of-fuel outcome of the embedding. -/
inductive PRes (α : Type) where
  | ok (ctx : Context) (a : α)
  | err (ctx : Context) (e : FromValueError)
  | panic (ctx : Context)
  | fuelOut (ctx : Context)

/-- Sequencing of compile steps; the model of `?`. -/
def PRes.bind {α β : Type} : PRes α → (Context → α → PRes β) → PRes β
  | PRes.ok ctx a, k => k ctx a
  | PRes.err ctx e, _ => PRes.err ctx e
  | PRes.panic ctx, _ => PRes.panic ctx
  | PRes.fuelOut ctx, _ => PRes.fuelOut ctx

/-- The context carried by an outcome. -/
def PRes.ctxOf {α : Type} : PRes α → Context
  | PRes.ok ctx _ => ctx
  | PRes.err ctx _ => ctx
  | PRes.panic ctx => ctx
  | PRes.fuelOut ctx => ctx

/-- Model of the `$schema` check (`src/schema/parse.rs` lines 14-25):
present only at depth 0, must be the draft-06 identifier string. -/
def checkSchemaField (json : Value) (members : List (String × Value)) (depth : Nat) :
    Option FromValueError :=
  match Value.lookup members "$schema" with
  | none => none
  | some val =>
    if depth > 0 then some (FromValueError.SubschemaUsesSchemaKeyword json)
    else match val with
      | Value.str s =>
        if s = "http://json-schema.org/draft-06/schema#" then none
        else some (FromValueError.UnknownSchemaVersion json s)
      | _ => some (FromValueError.InvalidKeywordType json "$schema" val)

/-- Model of the `$id` step (`src/schema/parse.rs` lines 29-41): a string
`$id` is parsed as a URL and overrides the inherited URI. -/
def getIdE (ora : Oracles) (json : Value) (members : List (String × Value)) (inherited : Url) :
    Except FromValueError Url :=
  match Value.lookup members "$id" with
  | none => Except.ok inherited
  | some (Value.str s) =>
    match ora.urlParse s with
    | some u => Except.ok u
    | none => Except.error (FromValueError.InvalidId json s)
  | some val => Except.error (FromValueError.InvalidKeywordType json "$id" val)

/-- Model of the `title`/`description` steps (`src/schema/parse.rs` lines
44-63): an optional string member. -/
def getStrField (json : Value) (members : List (String × Value)) (name : String) :
    Except FromValueError (Option String) :=
  match Value.lookup members name with
  | none => Except.ok none
  | some (Value.str s) => Except.ok (some s)
  | some val => Except.error (FromValueError.InvalidKeywordType json name val)

/-- Outcome of a keyword handler that needs no registry access. -/
inductive EP (α : Type) where
  | ok (a : α)
  | err (e : FromValueError)
  | panic

/-- The string-collection loop of the `required` arm
(`src/schema/parse.rs` lines 218-230). -/
def reqStrings (json : Value) (k : String) : List Value → Except FromValueError (List String)
  | [] => Except.ok []
  | Value.str s :: rest => (reqStrings json k rest).map (fun ss => s :: ss)
  | v :: _ => Except.error (FromValueError.InvalidKeywordType json k v)

/-- The element loop of the `type` array arm (`src/schema/parse.rs` lines
232-242); errors carry the whole keyword value, as in the source. -/
def tyList (json : Value) (k : String) (whole : Value) : List Value → Except FromValueError (List Ty)
  | [] => Except.ok []
  | Value.str s :: rest =>
    match Ty.from_string s with
    | some t => (tyList json k whole rest).map (fun ts => t :: ts)
    | none => Except.error (FromValueError.InvalidKeywordValue json k whole)
  | _ :: _ => Except.error (FromValueError.InvalidKeywordValue json k whole)

/-- The arms of the keyword loop of `Context::parse` (`src/schema/parse.rs`
lines 138-266) that do not recurse into subschemas.  `allOf`, `anyOf` and
`contains` are handled by `parseFieldsWith`; every key the loop does not
know falls into the final arm, which is `unimplemented!()`. -/
def pureField (ora : Oracles) (json : Value) (k : String) (v : Value) : EP (Option Condition) :=
  match k with
  | "const" => EP.ok (some (Condition.Const v))
  | "exclusiveMaximum" =>
    match v with
    | Value.num n => EP.ok (some (Condition.ExclusiveMaximum n))
    | _ => EP.err (FromValueError.InvalidKeywordType json k v)
  | "exclusiveMinimum" =>
    match v with
    | Value.num n => EP.ok (some (Condition.ExclusiveMinimum n))
    | _ => EP.err (FromValueError.InvalidKeywordType json k v)
  | "maxLength" =>
    match v with
    | Value.num n =>
      match n.asU64 with
      | some m => EP.ok (some (Condition.MaxLength m))
      | none => EP.err (FromValueError.InvalidKeywordType json k v)
    | _ => EP.err (FromValueError.InvalidKeywordType json k v)
  | "maximum" =>
    match v with
    | Value.num n => EP.ok (some (Condition.Maximum n))
    | _ => EP.err (FromValueError.InvalidKeywordType json k v)
  | "minItems" =>
    match v with
    | Value.num n =>
      match n.asU64 with
      | some m => EP.ok (some (Condition.MinItems m))
      | none => EP.err (FromValueError.InvalidKeywordType json k v)
    | _ => EP.err (FromValueError.InvalidKeywordType json k v)
  | "minLength" =>
    match v with
    | Value.num n =>
      match n.asU64 with
      | some m => EP.ok (some (Condition.MinLength m))
      | none => EP.err (FromValueError.InvalidKeywordType json k v)
    | _ => EP.err (FromValueError.InvalidKeywordType json k v)
  | "minimum" =>
    match v with
    | Value.num n => EP.ok (some (Condition.Minimum n))
    | _ => EP.err (FromValueError.InvalidKeywordType json k v)
  | "pattern" =>
    match v with
    | Value.str s =>
      if ora.regexCompilable s then EP.ok (some (Condition.Pattern ⟨s⟩))
      else EP.err (FromValueError.BadPattern json)
    | _ => EP.err (FromValueError.InvalidKeywordType json k v)
  | "required" =>
    match v with
    | Value.arr elems =>
      match reqStrings json k elems with
      | Except.ok names => EP.ok (some (Condition.Required names))
      | Except.error e => EP.err e
    | _ => EP.err (FromValueError.InvalidKeywordType json k v)
  | "type" =>
    match v with
    | Value.arr elems =>
      match tyList json k v elems with
      | Except.ok ts => EP.ok (some (Condition.TypeCond ts))
      | Except.error e => EP.err e
    | Value.str s =>
      match Ty.from_string s with
      | some t => EP.ok (some (Condition.TypeCond [t]))
      | none => EP.err (FromValueError.InvalidKeywordValue json k v)
    | _ => EP.err (FromValueError.InvalidKeywordType json k v)
  | "additionalItems" => EP.ok none
  | "items" => EP.ok none
  | "additionalProperties" => EP.ok none
  | "patternProperties" => EP.ok none
  | "properties" => EP.ok none
  | "definitions" => EP.ok none
  | "$schema" => EP.ok none
  | "$ref" => EP.ok none
  | "$id" => EP.ok none
  | "title" => EP.ok none
  | "description" => EP.ok none
  | "default" => EP.ok none
  | "examples" => EP.ok none
  | "format" => EP.ok none
  | _ => EP.panic

/-- Pairs each array element with its pointer-indexed child URI, as in the
`enumerate()` loops of `src/schema/parse.rs`. -/
def enumUris (base : Url) (elems : List Value) : List (Url × Value) :=
  elems.enum.map (fun p => (pushUri base (toString p.1), p.2))

/-- Compiles a list of (URI, document) pairs in order, as the
`collect::<Result<Vec<_>, _>>()` calls of `src/schema/parse.rs` do. -/
def parseSeqWith (rec : Context → Url → Value → PRes Url) :
    Context → List (Url × Value) → PRes (List Url)
  | ctx, [] => PRes.ok ctx []
  | ctx, (u, v) :: rest =>
    (rec ctx u v).bind fun ctx r =>
      (parseSeqWith rec ctx rest).bind fun ctx rs => PRes.ok ctx (r :: rs)

/-- Compiles the `properties` object (`src/schema/parse.rs` lines 104-112):
each member value becomes a child schema at `push_uri(id, key)`. -/
def parsePropsWith (rec : Context → Url → Value → PRes Url) (id : Url) :
    Context → List (String × Value) → PRes (List (String × Url))
  | ctx, [] => PRes.ok ctx []
  | ctx, (k, v) :: rest =>
    (rec ctx (pushUri id k) v).bind fun ctx u =>
      (parsePropsWith rec id ctx rest).bind fun ctx ps => PRes.ok ctx ((k, u) :: ps)

/-- Compiles the `patternProperties` object (`src/schema/parse.rs` lines
113-125).  Each entry parses its child schema and then compiles the key as
a regex (`BadPattern` on failure).  The collected map is a
`BTreeMap<RegexWrapper, Url>`, and `Ord for RegexWrapper`
(`src/schema/condition.rs` lines 340-344) is `unimplemented!()`, so
inserting a second entry panics; `sizeSoFar` tracks the map size. -/
def parsePatPropsWith (rec : Context → Url → Value → PRes Url) (ora : Oracles) (json : Value)
    (id : Url) : Context → List (String × Value) → Nat → PRes (List (RegexWrapper × Url))
  | ctx, [], _ => PRes.ok ctx []
  | ctx, (k, v) :: rest, sizeSoFar =>
    (rec ctx (pushUri id k) v).bind fun ctx u =>
      if ora.regexCompilable k then
        if sizeSoFar = 0 then
          (parsePatPropsWith rec ora json id ctx rest 1).bind fun ctx ps =>
            PRes.ok ctx ((RegexWrapper.mk k, u) :: ps)
        else PRes.panic ctx
      else PRes.err ctx (FromValueError.BadPattern json)

/-- The `items`/`additionalItems` block (`src/schema/parse.rs` lines
83-101), producing its contribution to the condition list. -/
def itemsBlockWith (rec : Context → Url → Value → PRes Url) (json : Value) (id : Url)
    (members : List (String × Value)) (ctx : Context) : PRes (List Condition) :=
  match Value.lookup members "items" with
  | none => PRes.ok ctx []
  | some (Value.arr arr) =>
    (parseSeqWith rec ctx (enumUris (pushUri id "items") arr)).bind fun ctx items =>
      (match Value.lookup members "additionalItems" with
       | some v2 =>
         (rec ctx (pushUri id "additionalItems") v2).bind fun ctx u => PRes.ok ctx (some u)
       | none => PRes.ok ctx none).bind fun ctx addl =>
        PRes.ok ctx [Condition.Items items addl]
  | some v =>
    (rec ctx (pushUri id "items") v).bind fun ctx u =>
      PRes.ok ctx [Condition.Items [] (some u)]

/-- The `properties`/`patternProperties`/`additionalProperties` block
(`src/schema/parse.rs` lines 104-135), producing the single combined
`Properties` condition when at least one of the three keys is present. -/
def propsBlockWith (rec : Context → Url → Value → PRes Url) (ora : Oracles) (json : Value)
    (id : Url) (members : List (String × Value)) (ctx : Context) : PRes (List Condition) :=
  (match Value.lookup members "properties" with
   | some (Value.obj props) =>
     (parsePropsWith rec id ctx props).bind fun ctx ps => PRes.ok ctx (some ps)
   | some v => PRes.err ctx (FromValueError.InvalidKeywordType json "properties" v)
   | none => PRes.ok ctx none).bind fun ctx properties =>
  (match Value.lookup members "patternProperties" with
   | some (Value.obj pats) =>
     (parsePatPropsWith rec ora json id ctx pats 0).bind fun ctx ps => PRes.ok ctx (some ps)
   | some v => PRes.err ctx (FromValueError.InvalidKeywordType json "patternProperties" v)
   | none => PRes.ok ctx none).bind fun ctx patterns =>
  (match Value.lookup members "additionalProperties" with
   | some v =>
     (rec ctx (pushUri id "additionalProperties") v).bind fun ctx u => PRes.ok ctx (some u)
   | none => PRes.ok ctx none).bind fun ctx addl =>
  if properties.isSome || patterns.isSome || addl.isSome then
    PRes.ok ctx [Condition.Properties (properties.getD []) (patterns.getD []) addl]
  else PRes.ok ctx []

/-- The keyword loop of `Context::parse` (`src/schema/parse.rs` lines
138-267), iterating the object's members in order: `allOf`, `anyOf` and
`contains` recurse into subschemas, everything else goes through
`pureField`, and conditions are pushed in iteration order. -/
def parseFieldsWith (rec : Context → Url → Value → PRes Url) (ora : Oracles) (json : Value)
    (id : Url) : Context → List (String × Value) → PRes (List Condition)
  | ctx, [] => PRes.ok ctx []
  | ctx, (k, v) :: rest =>
    if k = "allOf" then
      match v with
      | Value.arr elems =>
        (parseSeqWith rec ctx (enumUris (pushUri id "allOf") elems)).bind fun ctx us =>
          (parseFieldsWith rec ora json id ctx rest).bind fun ctx cs =>
            PRes.ok ctx (Condition.AllOf us :: cs)
      | _ => PRes.err ctx (FromValueError.InvalidKeywordType json k v)
    else if k = "anyOf" then
      match v with
      | Value.arr elems =>
        (parseSeqWith rec ctx (enumUris (pushUri id "anyOf") elems)).bind fun ctx us =>
          (parseFieldsWith rec ora json id ctx rest).bind fun ctx cs =>
            PRes.ok ctx (Condition.AnyOf us :: cs)
      | _ => PRes.err ctx (FromValueError.InvalidKeywordType json k v)
    else if k = "contains" then
      (rec ctx (pushUri id "contains") v).bind fun ctx u =>
        (parseFieldsWith rec ora json id ctx rest).bind fun ctx cs =>
          PRes.ok ctx (Condition.Contains u :: cs)
    else
      match pureField ora json k v with
      | EP.ok none => parseFieldsWith rec ora json id ctx rest
      | EP.ok (some c) =>
        (parseFieldsWith rec ora json id ctx rest).bind fun ctx cs => PRes.ok ctx (c :: cs)
      | EP.err e => PRes.err ctx e
      | EP.panic => PRes.panic ctx

/-- The `$ref` resolution step (`src/schema/parse.rs` lines 70-79): join
the reference against the node's effective URI, `InvalidKeywordValue` when
the join fails, and store a `Reference` validator under the effective
URI — the sibling keywords are never looked at. -/
def refStep (ora : Oracles) (json : Value) (id' : Url) (r : String) (title desc : Option String)
    (ctx : Context) : PRes Url :=
  match ora.urlJoin id' r with
  | some r' => PRes.ok (ctx.put id' ⟨desc, title, Validator.Reference r'⟩) id'
  | none => PRes.err ctx (FromValueError.InvalidKeywordValue json "$ref" (Value.str r))

/-- Model of `Context::parse` (`src/schema/parse.rs` lines 8-280), with
explicit fuel for the recursion into subschemas.  `true`/`false` become
`Anything`/`Nothing`; an object goes through the `$schema`, `$id`,
`title`, `description` and `$ref` steps and then the condition blocks; any
other value is `InvalidSchemaType`.  The resulting node is stored under
the node's effective URI, which is returned. -/
def parseF : Nat → Oracles → Url → Value → Nat → Context → PRes Url
  | 0, _, _, _, _, ctx => PRes.fuelOut ctx
  | fuel + 1, ora, id, json, depth, ctx =>
    match json with
    | Value.bool true => PRes.ok (ctx.put id ⟨none, none, Validator.Anything⟩) id
    | Value.bool false => PRes.ok (ctx.put id ⟨none, none, Validator.Nothing⟩) id
    | Value.obj members =>
      match checkSchemaField json members depth with
      | some e => PRes.err ctx e
      | none =>
        match getIdE ora json members id with
        | Except.error e => PRes.err ctx e
        | Except.ok id' =>
          match getStrField json members "title" with
          | Except.error e => PRes.err ctx e
          | Except.ok title =>
            match getStrField json members "description" with
            | Except.error e => PRes.err ctx e
            | Except.ok desc =>
              match Value.lookup members "$ref" with
              | some (Value.str r) => refStep ora json id' r title desc ctx
              | some val => PRes.err ctx (FromValueError.InvalidKeywordType json "$ref" val)
              | none =>
                (itemsBlockWith (fun ctx u v => parseF fuel ora u v (depth + 1) ctx)
                    json id' members ctx).bind fun ctx c1 =>
                  (propsBlockWith (fun ctx u v => parseF fuel ora u v (depth + 1) ctx)
                      ora json id' members ctx).bind fun ctx c2 =>
                    (parseFieldsWith (fun ctx u v => parseF fuel ora u v (depth + 1) ctx)
                        ora json id' ctx members).bind fun ctx c3 =>
                      PRes.ok
                        (ctx.put id'
                          ⟨desc, title, Validator.Conditions (sortConditions (c1 ++ c2 ++ c3))⟩)
                        id'
    | _ => PRes.err ctx (FromValueError.InvalidSchemaType json)

mutual

/-- Structural equality of JSON values (serde's `PartialEq for Value`),
used by the `Const` arm of `Condition::validate`. -/
def Value.beq : Value → Value → Bool
  | Value.null, Value.null => true
  | Value.bool a, Value.bool b => a == b
  | Value.num a, Value.num b => a == b
  | Value.str a, Value.str b => a == b
  | Value.arr xs, Value.arr ys => Value.beqList xs ys
  | Value.obj xs, Value.obj ys => Value.beqMembers xs ys
  | _, _ => false

/-- Elementwise equality of JSON arrays. -/
def Value.beqList : List Value → List Value → Bool
  | [], [] => true
  | x :: xs, y :: ys => Value.beq x y && Value.beqList xs ys
  | _, _ => false

/-- Pairwise equality of JSON object members. -/
def Value.beqMembers : List (String × Value) → List (String × Value) → Bool
  | [], [] => true
  | (k, x) :: xs, (k', y) :: ys => k == k' && Value.beq x y && Value.beqMembers xs ys
  | _, _ => false

end

/-- Outcome of validating a value: success, a `ValidationError`, a panic,
or the artificial out-of-fuel outcome of the embedding. -/
inductive VOut where
  | ok
  | err (e : ValidationError)
  | panic
  | fuelOut

/-- The ubiquitous lookup-then-validate step of `Condition::validate`
(`src/schema/condition.rs`): `context.get(url).ok_or_else(|| BadReference)?`
followed by `schema.validate(json)`.  `recN` is the validation of one node
(tied to `validateNodeF` at the recursive knot). -/
def checkUriWith (recN : JsonSchemaInner → Value → VOut) (ctx : Context) (u : Url) (v : Value) :
    VOut :=
  match ctx.get u with
  | GetOut.panic => VOut.panic
  | GetOut.missing => VOut.err (ValidationError.BadReference u)
  | GetOut.found n => recN n v

/-- Outcome of the boolean body of one `Condition::validate` arm: the arms
compute a `bool`, but `?` can escape with an error and panics unwind. -/
inductive EOut where
  | val (b : Bool)
  | err (e : ValidationError)
  | panic
  | fuelOut

/-- The `AllOf` loop (`src/schema/condition.rs` lines 166-173): every
referenced schema must validate, and a child's failure propagates. -/
def valAllOf (recN : JsonSchemaInner → Value → VOut) (ctx : Context) (v : Value) :
    List Url → EOut
  | [] => EOut.val true
  | u :: rest =>
    match checkUriWith recN ctx u v with
    | VOut.ok => valAllOf recN ctx v rest
    | VOut.err e => EOut.err e
    | VOut.panic => EOut.panic
    | VOut.fuelOut => EOut.fuelOut

/-- The `AnyOf` loop (`src/schema/condition.rs` lines 174-183): a missing
reference aborts with `BadReference`, a child failure tries the next
alternative, a child success succeeds. -/
def valAnyOf (recN : JsonSchemaInner → Value → VOut) (ctx : Context) (v : Value) :
    List Url → EOut
  | [] => EOut.val false
  | u :: rest =>
    match ctx.get u with
    | GetOut.panic => EOut.panic
    | GetOut.missing => EOut.err (ValidationError.BadReference u)
    | GetOut.found n =>
      match recN n v with
      | VOut.ok => EOut.val true
      | VOut.err _ => valAnyOf recN ctx v rest
      | VOut.panic => EOut.panic
      | VOut.fuelOut => EOut.fuelOut

/-- The `Items` loop (`src/schema/condition.rs` lines 197-208): element `i`
is checked against the positional schema at `i`, else the trailing schema,
else unconstrained. -/
def valItems (recN : JsonSchemaInner → Value → VOut) (ctx : Context) (schemas : List Url)
    (addl : Option Url) : List Value → Nat → EOut
  | [], _ => EOut.val true
  | x :: rest, i =>
    match (match schemas.get? i with | some u => some u | none => addl) with
    | some u =>
      match checkUriWith recN ctx u x with
      | VOut.ok => valItems recN ctx schemas addl rest (i + 1)
      | VOut.err e => EOut.err e
      | VOut.panic => EOut.panic
      | VOut.fuelOut => EOut.fuelOut
    | none => valItems recN ctx schemas addl rest (i + 1)

/-- The `Contains` search (`src/schema/condition.rs` lines 185-191):
`arr.iter().any(|v| schema.validate(v).is_ok())`. -/
def valContainsList (recN : JsonSchemaInner → Value → VOut) (n : JsonSchemaInner) :
    List Value → EOut
  | [] => EOut.val false
  | x :: rest =>
    match recN n x with
    | VOut.ok => EOut.val true
    | VOut.err _ => valContainsList recN n rest
    | VOut.panic => EOut.panic
    | VOut.fuelOut => EOut.fuelOut

/-- The pattern loop of the `Properties` arm (`src/schema/condition.rs`
lines 243-248): every pattern whose regex matches the key applies, and
`matched` records whether any did. -/
def valPatterns (recN : JsonSchemaInner → Value → VOut) (ora : Oracles) (ctx : Context)
    (k : String) (x : Value) : List (RegexWrapper × Url) → Bool → EOut
  | [], matched => EOut.val matched
  | (re, u) :: rest, matched =>
    if ora.regexMatch re.pattern k then
      match checkUriWith recN ctx u x with
      | VOut.ok => valPatterns recN ora ctx k x rest true
      | VOut.err e => EOut.err e
      | VOut.panic => EOut.panic
      | VOut.fuelOut => EOut.fuelOut
    else valPatterns recN ora ctx k x rest matched

/-- The tail of one member check of the `Properties` arm: the pattern loop
followed by the `additionalProperties` fallback when neither the named nor
any pattern schema applied (`src/schema/condition.rs` lines 243-255). -/
def valMemberRest (recN : JsonSchemaInner → Value → VOut) (ora : Oracles) (ctx : Context)
    (pats : List (RegexWrapper × Url)) (addl : Option Url) (k : String) (x : Value)
    (namedHit : Bool) : EOut :=
  match valPatterns recN ora ctx k x pats false with
  | EOut.val patHit =>
    if namedHit || patHit then EOut.val true
    else
      match addl with
      | some u =>
        match checkUriWith recN ctx u x with
        | VOut.ok => EOut.val true
        | VOut.err e => EOut.err e
        | VOut.panic => EOut.panic
        | VOut.fuelOut => EOut.fuelOut
      | none => EOut.val true
  | EOut.err e => EOut.err e
  | EOut.panic => EOut.panic
  | EOut.fuelOut => EOut.fuelOut

/-- One member check of the `Properties` arm (`src/schema/condition.rs`
lines 235-256): the exact-name schema first, then `valMemberRest`. -/
def valMember (recN : JsonSchemaInner → Value → VOut) (ora : Oracles) (ctx : Context)
    (props : List (String × Url)) (pats : List (RegexWrapper × Url)) (addl : Option Url)
    (k : String) (x : Value) : EOut :=
  match List.lookup k props with
  | some u =>
    match checkUriWith recN ctx u x with
    | VOut.ok => valMemberRest recN ora ctx pats addl k x true
    | VOut.err e => EOut.err e
    | VOut.panic => EOut.panic
    | VOut.fuelOut => EOut.fuelOut
  | none => valMemberRest recN ora ctx pats addl k x false

/-- The member loop of the `Properties` arm (`src/schema/condition.rs`
lines 234-257). -/
def valPropsMembers (recN : JsonSchemaInner → Value → VOut) (ora : Oracles) (ctx : Context)
    (props : List (String × Url)) (pats : List (RegexWrapper × Url)) (addl : Option Url) :
    List (String × Value) → EOut
  | [] => EOut.val true
  | (k, x) :: rest =>
    match valMember recN ora ctx props pats addl k x with
    | EOut.val _ => valPropsMembers recN ora ctx props pats addl rest
    | EOut.err e => EOut.err e
    | EOut.panic => EOut.panic
    | EOut.fuelOut => EOut.fuelOut

/-- The boolean body of `Condition::validate` (`src/schema/condition.rs`
lines 165-268, the source's `let ok = match self {...}`).  The arms the
source implements are `AllOf`, `AnyOf`, `Const`, `Contains`,
`ExclusiveMinimum`, `Items`, `MaxLength`, `Maximum`, `MinLength`,
`Minimum`, `Pattern`, `Properties`, `Required` and `Type`; every other
condition falls into the final arm, which is
`panic!("Condition {:?} not implemented")`. -/
def Condition.bodyEval (recN : JsonSchemaInner → Value → VOut) (ora : Oracles) (ctx : Context)
    (c : Condition) (json : Value) : EOut :=
  match c with
    | Condition.AllOf urls => valAllOf recN ctx json urls
    | Condition.AnyOf urls => valAnyOf recN ctx json urls
    | Condition.Const v => EOut.val (Value.beq json v)
    | Condition.Contains uri =>
      match json with
      | Value.arr elems =>
        match ctx.get uri with
        | GetOut.panic => EOut.panic
        | GetOut.missing => EOut.err (ValidationError.BadReference uri)
        | GetOut.found n => valContainsList recN n elems
      | _ => EOut.val true
    | Condition.ExclusiveMinimum m =>
      match json with
      | Value.num n => EOut.val (JNum.lt m n)
      | _ => EOut.val true
    | Condition.Items schemas addl =>
      match json with
      | Value.arr elems => valItems recN ctx schemas addl elems 0
      | _ => EOut.val true
    | Condition.MaxLength n =>
      match json with
      | Value.str s => EOut.val (decide (s.length ≤ n))
      | _ => EOut.val true
    | Condition.Maximum m =>
      match json with
      | Value.num n => EOut.val (JNum.le n m)
      | _ => EOut.val true
    | Condition.MinLength n =>
      match json with
      | Value.str s => EOut.val (decide (n ≤ s.length))
      | _ => EOut.val true
    | Condition.Minimum m =>
      match json with
      | Value.num n => EOut.val (JNum.le m n)
      | _ => EOut.val true
    | Condition.Pattern re =>
      match json with
      | Value.str s => EOut.val (ora.regexMatch re.pattern s)
      | _ => EOut.val true
    | Condition.Properties props pats addl =>
      match json with
      | Value.obj mem => valPropsMembers recN ora ctx props pats addl mem
      | _ => EOut.val true
    | Condition.Required names =>
      match json with
      | Value.obj mem => EOut.val (names.all (fun p => (Value.lookup mem p).isSome))
      | _ => EOut.val true
    | Condition.TypeCond ts => EOut.val (ts.any (fun t => t.type_of json))
    | _ => EOut.panic

/-- Model of `Condition::validate` (`src/schema/condition.rs` lines
164-275): the boolean body (`Condition.bodyEval`, the source's
`let ok = match self {...}`), then `Ok(())` when it is true and
`Err(ConditionFailed(self))` when it is false; errors escaping through `?`
and panics pass through. -/
def Condition.validate (recN : JsonSchemaInner → Value → VOut) (ora : Oracles) (ctx : Context)
    (c : Condition) (json : Value) : VOut :=
  match Condition.bodyEval recN ora ctx c json with
  | EOut.val true => VOut.ok
  | EOut.val false => VOut.err (ValidationError.ConditionFailed c)
  | EOut.err e => VOut.err e
  | EOut.panic => VOut.panic
  | EOut.fuelOut => VOut.fuelOut

/-- The condition loop of `Validator::validate`: conditions are evaluated
in order and the first failure is returned (the
`collect::<Result<Vec<_>, _>>()` of the superseded `src/schema.rs` lines
253-255; the final revision of `src/schema/mod.rs` is not in the
snapshot, and the spec (§4.3) specifies the first-failure behaviour). -/
def validateCondsF (recN : JsonSchemaInner → Value → VOut) (ora : Oracles) (ctx : Context) :
    List Condition → Value → VOut
  | [], _ => VOut.ok
  | c :: rest, v =>
    match Condition.validate recN ora ctx c v with
    | VOut.ok => validateCondsF recN ora ctx rest v
    | VOut.err e => VOut.err e
    | VOut.panic => VOut.panic
    | VOut.fuelOut => VOut.fuelOut

/-- Validation of one schema node against a value.  Modelled from the
spec (§4.3), the final `src/schema/mod.rs` being absent from the snapshot:
`Anything` succeeds, `Nothing` fails with `NoValuesPass`, `Conditions`
runs the condition loop, and `Reference` resolves through `Context::get`
(`BadReference` when absent) and recurses.  The recursion through
references is unbounded in the source and is given explicit fuel here. -/
def validateNodeF : Nat → Oracles → Context → JsonSchemaInner → Value → VOut
  | 0, _, _, _, _ => VOut.fuelOut
  | fuel + 1, ora, ctx, n, v =>
    match n.validator with
    | Validator.Anything => VOut.ok
    | Validator.Nothing => VOut.err (ValidationError.NoValuesPass v)
    | Validator.Conditions cs =>
      validateCondsF (fun n' v' => validateNodeF fuel ora ctx n' v') ora ctx cs v
    | Validator.Reference u =>
      checkUriWith (fun n' v' => validateNodeF fuel ora ctx n' v') ctx u v

/-- Outcome of `Context::make_schema`. -/
inductive MSOut where
  | ok (ctx : Context) (uri : Url)
  | err (ctx : Context) (e : FromValueError)
  | panic (ctx : Context)
  | fuelOut (ctx : Context)

/-- Model of `Context::make_schema` (`src/schema/context.rs` lines 28-31):
parse, then `self.get(&uri).unwrap()` — unwrapping `None` panics, and
`get` itself panics on the metaschema URI. -/
def makeSchema (fuel : Nat) (ora : Oracles) (ctx : Context) (base : Url) (json : Value) :
    MSOut :=
  match parseF fuel ora base json 0 ctx with
  | PRes.ok ctx' u =>
    match ctx'.get u with
    | GetOut.found _ => MSOut.ok ctx' u
    | GetOut.missing => MSOut.panic ctx'
    | GetOut.panic => MSOut.panic ctx'
  | PRes.err ctx' e => MSOut.err ctx' e
  | PRes.panic ctx' => MSOut.panic ctx'
  | PRes.fuelOut ctx' => MSOut.fuelOut ctx'

/-- Outcome of `Context::new`. -/
inductive NewOut where
  | ret (ctx : Context)
  | panic
  | fuelOut

/-- Model of `Context::new` (`src/schema/context.rs` lines 15-25): build
the metaschema in an empty registry with
`make_schema(METASCHEMA_URI, METASCHEMA_VALUE).expect(..)`; the `expect`
turns a compile error into a panic. -/
def contextNew (fuel : Nat) (ora : Oracles) (metaschema : Value) : NewOut :=
  match makeSchema fuel ora Context.empty METASCHEMA_URI metaschema with
  | MSOut.ok ctx _ => NewOut.ret ctx
  | MSOut.err _ _ => NewOut.panic
  | MSOut.panic _ => NewOut.panic
  | MSOut.fuelOut _ => NewOut.fuelOut

/-- Modelled from the spec: the bundled draft-06 metaschema document
(`metaschema.json` is not part of the snapshot).  Only the members that
drive `Context::new`'s control flow are modelled: per §6 and §4.4 of the
spec the dialect identifier `http://json-schema.org/draft-06/schema#` is
the document's `$schema` value, and it is also the published metaschema's
`$id`. -/
def METASCHEMA_VALUE : Value :=
  Value.obj [("$id", Value.str METASCHEMA_URI), ("$schema", Value.str METASCHEMA_URI)]

/-- Applies a list of `put`s in order. -/
def Context.putList (ctx : Context) (l : List (Url × JsonSchemaInner)) : Context :=
  l.foldl (fun c p => c.put p.1 p.2) ctx

/-- The last binding of `x` in a put list, if any. -/
def lastVal : List (Url × JsonSchemaInner) → Url → Option JsonSchemaInner
  | [], _ => none
  | p :: rest, x =>
    match lastVal rest x with
    | some n => some n
    | none => if x = p.1 then some p.2 else none

theorem putList_eval (l : List (Url × JsonSchemaInner)) :
    ∀ (ctx : Context) (x : Url),
      Context.putList ctx l x = (match lastVal l x with | some n => some n | none => ctx x) := by
  induction l with
  | nil => intro ctx x; rfl
  | cons p t ih =>
    intro ctx x
    show Context.putList (ctx.put p.1 p.2) t x = _
    rw [ih]
    cases h : lastVal t x with
    | some n => simp [lastVal, h]
    | none =>
      simp only [lastVal, h, Context.put]
      by_cases hx : x = p.1 <;> simp [hx]

theorem putList_putList (ctx : Context) (l : List (Url × JsonSchemaInner)) (x : Url) :
    Context.putList (Context.putList ctx l) l x = Context.putList ctx l x := by
  simp only [putList_eval]
  cases lastVal l x <;> rfl

theorem putList_mono (ctx : Context) (l : List (Url × JsonSchemaInner)) (x : Url)
    (h : ctx x ≠ none) : Context.putList ctx l x ≠ none := by
  rw [putList_eval]
  cases lastVal l x with
  | some n => exact Option.some_ne_none n
  | none => exact h

/-- Context-free description of a compile step: the step's result together
with the list of registry insertions it performs, in order.  `Context::parse`
never reads the registry (it only calls `put`), which is what the
abstraction lemmas below make precise. -/
inductive AOut (α : Type) where
  | ok (l : List (Url × JsonSchemaInner)) (a : α)
  | err (l : List (Url × JsonSchemaInner)) (e : FromValueError)
  | panic (l : List (Url × JsonSchemaInner))
  | fuelOut (l : List (Url × JsonSchemaInner))

/-- Replays an abstract outcome against a concrete starting registry. -/
def AOut.apply {α : Type} : AOut α → Context → PRes α
  | AOut.ok l a, ctx => PRes.ok (ctx.putList l) a
  | AOut.err l e, ctx => PRes.err (ctx.putList l) e
  | AOut.panic l, ctx => PRes.panic (ctx.putList l)
  | AOut.fuelOut l, ctx => PRes.fuelOut (ctx.putList l)

/-- Prepends insertions to an abstract outcome. -/
def AOut.withPrefix {α : Type} (l : List (Url × JsonSchemaInner)) : AOut α → AOut α
  | AOut.ok l' a => AOut.ok (l ++ l') a
  | AOut.err l' e => AOut.err (l ++ l') e
  | AOut.panic l' => AOut.panic (l ++ l')
  | AOut.fuelOut l' => AOut.fuelOut (l ++ l')

/-- Sequencing of abstract outcomes, mirroring `PRes.bind`. -/
def AOut.bindA {α β : Type} : AOut α → (α → AOut β) → AOut β
  | AOut.ok l a, s => (s a).withPrefix l
  | AOut.err l e, _ => AOut.err l e
  | AOut.panic l, _ => AOut.panic l
  | AOut.fuelOut l, _ => AOut.fuelOut l

/-- A compile step is abstracted by `r` when replaying `r` from any
registry gives the step's behaviour on that registry. -/
def Abs {α : Type} (f : Context → PRes α) (r : AOut α) : Prop :=
  ∀ ctx, f ctx = r.apply ctx

/-- A compile step that some abstract outcome describes: such a step is
determined, up to its insertions, independently of the starting
registry. -/
def Absable {α : Type} (f : Context → PRes α) : Prop :=
  ∃ r, Abs f r

theorem apply_withPrefix {α : Type} (r : AOut α) (l : List (Url × JsonSchemaInner))
    (ctx : Context) : (r.withPrefix l).apply ctx = r.apply (ctx.putList l) := by
  cases r <;> simp [AOut.withPrefix, AOut.apply, Context.putList, List.foldl_append]

theorem abs_bind {α β : Type} {f : Context → PRes α} {r : AOut α}
    {g : Context → α → PRes β} {s : α → AOut β} (hf : Abs f r)
    (hg : ∀ a, Abs (fun ctx => g ctx a) (s a)) :
    Abs (fun ctx => (f ctx).bind g) (r.bindA s) := by
  intro ctx
  show (f ctx).bind g = _
  rw [hf ctx]
  cases r with
  | ok l a =>
    exact (hg a (Context.putList ctx l)).trans (apply_withPrefix (s a) l ctx).symm
  | err l e => rfl
  | panic l => rfl
  | fuelOut l => rfl

theorem absable_bind {α β : Type} {f : Context → PRes α} {g : Context → α → PRes β}
    (hf : Absable f) (hg : ∀ a, Absable (fun ctx => g ctx a)) :
    Absable (fun ctx => (f ctx).bind g) := by
  obtain ⟨r, hr⟩ := hf
  choose s hs using hg
  exact ⟨r.bindA s, abs_bind hr hs⟩

theorem absable_ok {α : Type} (a : α) : Absable (fun ctx => PRes.ok ctx a) :=
  ⟨AOut.ok [] a, fun _ => rfl⟩

theorem absable_err {α : Type} (e : FromValueError) :
    Absable (fun ctx => (PRes.err ctx e : PRes α)) :=
  ⟨AOut.err [] e, fun _ => rfl⟩

theorem absable_panic {α : Type} : Absable (fun ctx => (PRes.panic ctx : PRes α)) :=
  ⟨AOut.panic [], fun _ => rfl⟩

theorem absable_fuelOut {α : Type} : Absable (fun ctx => (PRes.fuelOut ctx : PRes α)) :=
  ⟨AOut.fuelOut [], fun _ => rfl⟩

theorem absable_put {α : Type} (u : Url) (n : JsonSchemaInner) (a : α) :
    Absable (fun ctx => PRes.ok (ctx.put u n) a) :=
  ⟨AOut.ok [(u, n)] a, fun _ => rfl⟩

theorem absable_ext {α : Type} {f g : Context → PRes α} (hg : Absable g)
    (h : ∀ ctx, f ctx = g ctx) : Absable f := by
  obtain ⟨r, hr⟩ := hg
  exact ⟨r, fun ctx => (h ctx).trans (hr ctx)⟩

theorem parseSeqWith_absable {rec : Context → Url → Value → PRes Url}
    (h : ∀ u v, Absable (fun ctx => rec ctx u v)) (l : List (Url × Value)) :
    Absable (fun ctx => parseSeqWith rec ctx l) := by
  induction l with
  | nil => exact absable_ok []
  | cons p t ih =>
    obtain ⟨u, v⟩ := p
    simp only [parseSeqWith]
    exact absable_bind (h u v) (fun r => absable_bind ih (fun rs => absable_ok (r :: rs)))

theorem parsePropsWith_absable {rec : Context → Url → Value → PRes Url}
    (h : ∀ u v, Absable (fun ctx => rec ctx u v)) (id : Url) (l : List (String × Value)) :
    Absable (fun ctx => parsePropsWith rec id ctx l) := by
  induction l with
  | nil => exact absable_ok []
  | cons p t ih =>
    obtain ⟨k, v⟩ := p
    simp only [parsePropsWith]
    exact absable_bind (h (pushUri id k) v)
      (fun u => absable_bind ih (fun ps => absable_ok ((k, u) :: ps)))

theorem parsePatPropsWith_absable {rec : Context → Url → Value → PRes Url}
    (h : ∀ u v, Absable (fun ctx => rec ctx u v)) (ora : Oracles) (json : Value) (id : Url)
    (l : List (String × Value)) : ∀ sizeSoFar : Nat,
    Absable (fun ctx => parsePatPropsWith rec ora json id ctx l sizeSoFar) := by
  induction l with
  | nil => intro sizeSoFar; exact absable_ok []
  | cons p t ih =>
    intro sizeSoFar
    obtain ⟨k, v⟩ := p
    simp only [parsePatPropsWith]
    refine absable_bind (h (pushUri id k) v) (fun u => ?_)
    by_cases hc : ora.regexCompilable k = true
    · simp only [hc, if_true]
      by_cases hn : sizeSoFar = 0
      · simp only [hn, if_pos]
        exact absable_bind (ih 1) (fun ps => absable_ok ((RegexWrapper.mk k, u) :: ps))
      · simp only [if_neg hn]
        exact absable_panic
    · simp only [if_neg hc]
      exact absable_err _

theorem itemsBlockWith_absable {rec : Context → Url → Value → PRes Url}
    (h : ∀ u v, Absable (fun ctx => rec ctx u v)) (json : Value) (id : Url)
    (members : List (String × Value)) :
    Absable (fun ctx => itemsBlockWith rec json id members ctx) := by
  simp only [itemsBlockWith]
  cases hm : Value.lookup members "items" with
  | none => exact absable_ok []
  | some v =>
    have hsingle : ∀ w : Value,
        Absable (fun ctx => (rec ctx (pushUri id "items") w).bind fun ctx u =>
          PRes.ok ctx [Condition.Items [] (some u)]) :=
      fun w => absable_bind (h (pushUri id "items") w)
        (fun u => absable_ok [Condition.Items [] (some u)])
    cases v with
    | arr xs =>
      refine absable_bind (parseSeqWith_absable h _) (fun items => ?_)
      cases ha : Value.lookup members "additionalItems" with
      | some v2 =>
        exact absable_bind (absable_bind (h (pushUri id "additionalItems") v2)
          (fun u => absable_ok (some u))) (fun addl => absable_ok [Condition.Items items addl])
      | none =>
        exact absable_bind (absable_ok none) (fun addl => absable_ok [Condition.Items items addl])
    | null => exact absable_ext (hsingle Value.null) (fun ctx => rfl)
    | bool b => exact absable_ext (hsingle (Value.bool b)) (fun ctx => rfl)
    | num n => exact absable_ext (hsingle (Value.num n)) (fun ctx => rfl)
    | str s => exact absable_ext (hsingle (Value.str s)) (fun ctx => rfl)
    | obj ms => exact absable_ext (hsingle (Value.obj ms)) (fun ctx => rfl)

theorem propsBlockWith_absable {rec : Context → Url → Value → PRes Url}
    (h : ∀ u v, Absable (fun ctx => rec ctx u v)) (ora : Oracles) (json : Value) (id : Url)
    (members : List (String × Value)) :
    Absable (fun ctx => propsBlockWith rec ora json id members ctx) := by
  simp only [propsBlockWith]
  have hprops : Absable (fun ctx =>
      (match Value.lookup members "properties" with
       | some (Value.obj props) =>
         (parsePropsWith rec id ctx props).bind fun ctx ps => PRes.ok ctx (some ps)
       | some v => PRes.err ctx (FromValueError.InvalidKeywordType json "properties" v)
       | none => PRes.ok ctx none)) := by
    cases hm : Value.lookup members "properties" with
    | none => exact absable_ok none
    | some v =>
      cases v with
      | obj props =>
        exact absable_bind (parsePropsWith_absable h id props) (fun ps => absable_ok (some ps))
      | null => exact absable_err _
      | bool b => exact absable_err _
      | num n => exact absable_err _
      | str s => exact absable_err _
      | arr xs => exact absable_err _
  refine absable_bind hprops (fun properties => ?_)
  have hpats : Absable (fun ctx =>
      (match Value.lookup members "patternProperties" with
       | some (Value.obj pats) =>
         (parsePatPropsWith rec ora json id ctx pats 0).bind fun ctx ps => PRes.ok ctx (some ps)
       | some v => PRes.err ctx (FromValueError.InvalidKeywordType json "patternProperties" v)
       | none => PRes.ok ctx none)) := by
    cases hm : Value.lookup members "patternProperties" with
    | none => exact absable_ok none
    | some v =>
      cases v with
      | obj pats =>
        exact absable_bind (parsePatPropsWith_absable h ora json id pats 0)
          (fun ps => absable_ok (some ps))
      | null => exact absable_err _
      | bool b => exact absable_err _
      | num n => exact absable_err _
      | str s => exact absable_err _
      | arr xs => exact absable_err _
  refine absable_bind hpats (fun patterns => ?_)
  have haddl : Absable (fun ctx =>
      (match Value.lookup members "additionalProperties" with
       | some v =>
         (rec ctx (pushUri id "additionalProperties") v).bind fun ctx u => PRes.ok ctx (some u)
       | none => PRes.ok ctx none)) := by
    cases hm : Value.lookup members "additionalProperties" with
    | none => exact absable_ok none
    | some v =>
      exact absable_bind (h (pushUri id "additionalProperties") v) (fun u => absable_ok (some u))
  refine absable_bind haddl (fun addl => ?_)
  by_cases hp : (properties.isSome || patterns.isSome || addl.isSome) = true
  · simp only [hp, if_true]
    exact absable_ok _
  · simp only [if_neg hp]
    exact absable_ok []

theorem parseFieldsWith_absable {rec : Context → Url → Value → PRes Url}
    (h : ∀ u v, Absable (fun ctx => rec ctx u v)) (ora : Oracles) (json : Value) (id : Url)
    (l : List (String × Value)) :
    Absable (fun ctx => parseFieldsWith rec ora json id ctx l) := by
  induction l with
  | nil => exact absable_ok []
  | cons p t ih =>
    obtain ⟨k, v⟩ := p
    simp only [parseFieldsWith]
    by_cases hall : k = "allOf"
    · simp only [if_pos hall]
      cases v with
      | arr elems =>
        exact absable_bind (parseSeqWith_absable h _)
          (fun us => absable_bind ih (fun cs => absable_ok (Condition.AllOf us :: cs)))
      | null => exact absable_err _
      | bool b => exact absable_err _
      | num n => exact absable_err _
      | str s => exact absable_err _
      | obj ms => exact absable_err _
    · simp only [if_neg hall]
      by_cases hany : k = "anyOf"
      · simp only [if_pos hany]
        cases v with
        | arr elems =>
          exact absable_bind (parseSeqWith_absable h _)
            (fun us => absable_bind ih (fun cs => absable_ok (Condition.AnyOf us :: cs)))
        | null => exact absable_err _
        | bool b => exact absable_err _
        | num n => exact absable_err _
        | str s => exact absable_err _
        | obj ms => exact absable_err _
      · simp only [if_neg hany]
        by_cases hcont : k = "contains"
        · simp only [if_pos hcont]
          exact absable_bind (h (pushUri id "contains") v)
            (fun u => absable_bind ih (fun cs => absable_ok (Condition.Contains u :: cs)))
        · simp only [if_neg hcont]
          cases hp : pureField ora json k v with
          | ok oc =>
            cases oc with
            | none => exact ih
            | some c => exact absable_bind ih (fun cs => absable_ok (c :: cs))
          | err e => exact absable_err e
          | panic => exact absable_panic

theorem refStep_absable (ora : Oracles) (json : Value) (id' : Url) (r : String)
    (title desc : Option String) : Absable (refStep ora json id' r title desc) := by
  cases hj : ora.urlJoin id' r with
  | some r' =>
    refine ⟨AOut.ok [(id', ⟨desc, title, Validator.Reference r'⟩)] id', fun ctx => ?_⟩
    unfold refStep
    rw [hj]
    rfl
  | none =>
    refine ⟨AOut.err [] (FromValueError.InvalidKeywordValue json "$ref" (Value.str r)),
      fun ctx => ?_⟩
    unfold refStep
    rw [hj]
    rfl

/-- Registry independence of `Context::parse`: the outcome and the ordered
list of insertions a compile performs are determined by the document, the
inherited URI, the depth and the oracles alone — the starting registry is
never read, only extended. -/
theorem parseF_absable : ∀ (fuel : Nat) (ora : Oracles) (id : Url) (json : Value) (depth : Nat),
    Absable (fun ctx => parseF fuel ora id json depth ctx) := by
  intro fuel
  induction fuel with
  | zero => intro ora id json depth; exact absable_fuelOut
  | succ fuel ih =>
    intro ora id json depth
    have hrec : ∀ u v, Absable (fun ctx => parseF fuel ora u v (depth + 1) ctx) :=
      fun u v => ih ora u v (depth + 1)
    cases json with
    | null => exact absable_err _
    | num n => exact absable_err _
    | str s => exact absable_err _
    | arr xs => exact absable_err _
    | bool b =>
      cases b with
      | true => exact absable_put id ⟨none, none, Validator.Anything⟩ id
      | false => exact absable_put id ⟨none, none, Validator.Nothing⟩ id
    | obj members =>
      simp only [parseF]
      cases hcs : checkSchemaField (Value.obj members) members depth with
      | some e => exact absable_err e
      | none =>
        cases hid : getIdE ora (Value.obj members) members id with
        | error e => exact absable_err e
        | ok id' =>
          cases ht : getStrField (Value.obj members) members "title" with
          | error e => exact absable_err e
          | ok title =>
            cases hd : getStrField (Value.obj members) members "description" with
            | error e => exact absable_err e
            | ok desc =>
              cases href : Value.lookup members "$ref" with
              | some v =>
                cases v with
                | str r =>
                  exact absable_ext (refStep_absable ora (Value.obj members) id' r title desc)
                    (fun ctx => rfl)
                | null =>
                  exact absable_ext (absable_err (FromValueError.InvalidKeywordType
                    (Value.obj members) "$ref" Value.null)) (fun ctx => rfl)
                | bool b =>
                  exact absable_ext (absable_err (FromValueError.InvalidKeywordType
                    (Value.obj members) "$ref" (Value.bool b))) (fun ctx => rfl)
                | num n =>
                  exact absable_ext (absable_err (FromValueError.InvalidKeywordType
                    (Value.obj members) "$ref" (Value.num n))) (fun ctx => rfl)
                | arr xs =>
                  exact absable_ext (absable_err (FromValueError.InvalidKeywordType
                    (Value.obj members) "$ref" (Value.arr xs))) (fun ctx => rfl)
                | obj ms =>
                  exact absable_ext (absable_err (FromValueError.InvalidKeywordType
                    (Value.obj members) "$ref" (Value.obj ms))) (fun ctx => rfl)
              | none =>
                exact absable_ext
                  (absable_bind (itemsBlockWith_absable hrec (Value.obj members) id' members)
                    (fun c1 => absable_bind
                      (propsBlockWith_absable hrec ora (Value.obj members) id' members)
                      (fun c2 => absable_bind
                        (parseFieldsWith_absable hrec ora (Value.obj members) id' members)
                        (fun c3 => absable_put id'
                          ⟨desc, title, Validator.Conditions (sortConditions (c1 ++ c2 ++ c3))⟩
                          id'))))
                  (fun ctx => rfl)

/-- Concrete oracles for the closed examples in this file: URL parsing
accepts every string unchanged, joining returns the reference, every
pattern compiles, and a regex matches exactly its own text. -/
def oraId : Oracles :=
  { urlParse := fun s => some s
    urlJoin := fun _ r => some r
    regexCompilable := fun _ => true
    regexMatch := fun p s => p == s }

/-- The document `{"allOf": [true], "type": 5}`: the `allOf` child
compiles (and is registered) before the malformed `type` keyword is
reached. -/
def docAllOfThenBadType : Value :=
  Value.obj [("allOf", Value.arr [Value.bool true]), ("type", Value.num ⟨5, 1⟩)]

/-- C1, counterexample.  Compiling `{"allOf": [true], "type": 5}` under
`http://x/s` fails with `InvalidKeywordType`, yet the child node compiled
for `allOf/0` is left registered at `http://x/s#//allOf/0`, where the
registry was empty before the call — the URI-to-node map is not "exactly
as it was before the call". -/
theorem c1_counterexample :
    (match parseF 9 oraId "http://x/s" docAllOfThenBadType 0 Context.empty with
     | PRes.err c _ => c "http://x/s#//allOf/0"
     | _ => none) = some ⟨none, none, Validator.Anything⟩ ∧
    Context.empty "http://x/s#//allOf/0" = none ∧
    some (⟨none, none, Validator.Anything⟩ : JsonSchemaInner) ≠ none :=
  ⟨rfl, rfl, fun h => Option.noConfusion h⟩

/-- C1, amended.  Compilation never rolls the registry back: whatever the
outcome (success, error or panic), every URI bound before the call is
still bound afterwards — each node is inserted as soon as its own subtree
compiles, so an error can leave already-compiled descendants registered,
but never removes anything. -/
theorem c1_registry_never_shrinks (fuel : Nat) (ora : Oracles) (id : Url) (json : Value)
    (depth : Nat) (ctx : Context) (x : Url) (h : ctx x ≠ none) :
    (parseF fuel ora id json depth ctx).ctxOf x ≠ none := by
  obtain ⟨r, hr⟩ := parseF_absable fuel ora id json depth
  have hc : parseF fuel ora id json depth ctx = r.apply ctx := hr ctx
  rw [hc]
  cases r with
  | ok l a => exact putList_mono ctx l x h
  | err l e => exact putList_mono ctx l x h
  | panic l => exact putList_mono ctx l x h
  | fuelOut l => exact putList_mono ctx l x h

theorem c1_registry_never_shrinks_witness :
    (Context.empty.put "http://y/a" ⟨none, none, Validator.Anything⟩) "http://y/a" ≠ none ∧
    (parseF 9 oraId "http://x/s" docAllOfThenBadType 0
        (Context.empty.put "http://y/a" ⟨none, none, Validator.Anything⟩)).ctxOf
      "http://y/a" ≠ none :=
  ⟨fun h => Option.noConfusion h,
    c1_registry_never_shrinks 9 oraId "http://x/s" docAllOfThenBadType 0
      (Context.empty.put "http://y/a" ⟨none, none, Validator.Anything⟩) "http://y/a"
      (fun h => Option.noConfusion h)⟩

/-- C9.  Compilation is deterministic (`parseF` is a function of its
arguments) and idempotent: when a compile of `json` under `id` from `ctx`
succeeds with URI `u` and registry `ctx₁`, compiling the identical
document again under the same base URI from `ctx₁` succeeds with the same
URI and leaves every registry entry — in particular the node stored at
`u`, conditions and order included — exactly as after the first compile.
This holds because `Context::parse` never reads the registry
(`parseF_absable`), so the second run re-inserts identical nodes. -/
theorem c9_parse_idempotent (fuel : Nat) (ora : Oracles) (id : Url) (json : Value) (depth : Nat)
    (ctx ctx₁ : Context) (u : Url)
    (h : parseF fuel ora id json depth ctx = PRes.ok ctx₁ u) :
    ∃ ctx₂, parseF fuel ora id json depth ctx₁ = PRes.ok ctx₂ u ∧ ∀ x, ctx₂ x = ctx₁ x := by
  obtain ⟨r, hr⟩ := parseF_absable fuel ora id json depth
  have hc : parseF fuel ora id json depth ctx = r.apply ctx := hr ctx
  rw [hc] at h
  cases r with
  | ok l a =>
    simp only [AOut.apply] at h
    injection h with h1 h2
    subst h2
    refine ⟨Context.putList ctx₁ l, ?_, ?_⟩
    · exact hr ctx₁
    · intro x
      rw [← h1]
      exact putList_putList ctx l x
  | err l e => exact PRes.noConfusion h
  | panic l => exact PRes.noConfusion h
  | fuelOut l => exact PRes.noConfusion h

/-- The document `{"maximum": 5}`. -/
def docMax5 : Value := Value.obj [("maximum", Value.num ⟨5, 1⟩)]

/-- The node `{"maximum": 5}` compiles to. -/
def nodeMax5 : JsonSchemaInner :=
  ⟨none, none, Validator.Conditions [Condition.Maximum ⟨5, 1⟩]⟩

theorem c9_parse_idempotent_witness :
    ∃ ctx₂,
      parseF 2 oraId "http://x/s" docMax5 0 (Context.empty.put "http://x/s" nodeMax5) =
        PRes.ok ctx₂ "http://x/s" ∧
      ∀ x, ctx₂ x = (Context.empty.put "http://x/s" nodeMax5) x :=
  c9_parse_idempotent 2 oraId "http://x/s" docMax5 0 Context.empty
    (Context.empty.put "http://x/s" nodeMax5) "http://x/s" rfl

/-- The keys the keyword loop of `Context::parse` knows (`src/schema/parse.rs`
lines 138-260): the implemented condition keywords, the keywords consumed
earlier, and the intentionally ignored ones.  Any other key reaches the
`unimplemented!()` arm at lines 262-265. -/
def recognizedKeys : List String :=
  ["allOf", "anyOf", "const", "contains", "exclusiveMaximum", "exclusiveMinimum", "maxLength",
   "maximum", "minItems", "minLength", "minimum", "pattern", "required", "type",
   "additionalItems", "items", "additionalProperties", "patternProperties", "properties",
   "definitions", "$schema", "$ref", "$id", "title", "description", "default", "examples",
   "format"]

theorem pureField_unknown (ora : Oracles) (json : Value) (k : String) (v : Value)
    (h : k ∉ recognizedKeys) : pureField ora json k v = EP.panic := by
  unfold pureField
  split <;> first
    | rfl
    | simp_all [recognizedKeys]

/-- C2, counterexample.  Submitting `{"frobnicate": true}` — whose only key
is not a recognized schema keyword — makes `Context::parse` hit the
`unimplemented!()` arm and panic, while the same document without that key
compiles to the empty condition list: the unrecognized key is neither
ignored nor does it leave the result unchanged. -/
theorem c2_counterexample :
    parseF 2 oraId "http://x/s" (Value.obj [("frobnicate", Value.bool true)]) 0 Context.empty =
      PRes.panic Context.empty ∧
    parseF 2 oraId "http://x/s" (Value.obj []) 0 Context.empty =
      PRes.ok (Context.empty.put "http://x/s" ⟨none, none, Validator.Conditions []⟩)
        "http://x/s" ∧
    PRes.panic Context.empty ≠
      PRes.ok (Context.empty.put "http://x/s" ⟨none, none, Validator.Conditions []⟩)
        "http://x/s" :=
  ⟨rfl, rfl, fun h => PRes.noConfusion h⟩

theorem bind_eq_ok {α β : Type} {m : PRes α} {g : Context → α → PRes β} {c : Context} {b : β}
    (h : m.bind g = PRes.ok c b) : ∃ c' a, m = PRes.ok c' a ∧ g c' a = PRes.ok c b := by
  cases m with
  | ok c' a => exact ⟨c', a, rfl, h⟩
  | err c' e => exact PRes.noConfusion h
  | panic c' => exact PRes.noConfusion h
  | fuelOut c' => exact PRes.noConfusion h

theorem parseFieldsWith_unknown_head_panics (ora : Oracles) (k : String) (v : Value)
    (h : k ∉ recognizedKeys) (rest : List (String × Value))
    (rec : Context → Url → Value → PRes Url) (json : Value) (id : Url) (ctx : Context) :
    parseFieldsWith rec ora json id ctx ((k, v) :: rest) = PRes.panic ctx := by
  have hne : ∀ s, s ∈ recognizedKeys → k ≠ s := fun s hs hk => h (hk ▸ hs)
  have hall : k ≠ "allOf" := hne _ (by decide)
  have hany : k ≠ "anyOf" := hne _ (by decide)
  have hcont : k ≠ "contains" := hne _ (by decide)
  simp only [parseFieldsWith, if_neg hall, if_neg hany, if_neg hcont,
    pureField_unknown ora json k v h]

theorem parseFieldsWith_unknown_not_ok (ora : Oracles) (k : String) (v : Value)
    (h : k ∉ recognizedKeys) :
    ∀ (l : List (String × Value)), (k, v) ∈ l →
      ∀ (rec : Context → Url → Value → PRes Url) (json : Value) (id : Url)
        (ctx ctx' : Context) (cs : List Condition),
        parseFieldsWith rec ora json id ctx l ≠ PRes.ok ctx' cs := by
  intro l
  induction l with
  | nil => intro hmem; exact absurd hmem (List.not_mem_nil _)
  | cons p t ih =>
    obtain ⟨k', v'⟩ := p
    intro hmem rec json id ctx ctx' cs hok
    rcases List.mem_cons.mp hmem with heq | hmem'
    · rw [Prod.mk.injEq] at heq
      obtain ⟨hk, hv⟩ := heq
      subst hk
      subst hv
      rw [parseFieldsWith_unknown_head_panics ora k v h t rec json id ctx] at hok
      exact PRes.noConfusion hok
    · simp only [parseFieldsWith] at hok
      split at hok
      · split at hok
        · obtain ⟨c1, us, -, hok2⟩ := bind_eq_ok hok
          obtain ⟨c2, cs2, hok3, -⟩ := bind_eq_ok hok2
          exact ih hmem' rec json id c1 c2 cs2 hok3
        · exact PRes.noConfusion hok
      · split at hok
        · split at hok
          · obtain ⟨c1, us, -, hok2⟩ := bind_eq_ok hok
            obtain ⟨c2, cs2, hok3, -⟩ := bind_eq_ok hok2
            exact ih hmem' rec json id c1 c2 cs2 hok3
          · exact PRes.noConfusion hok
        · split at hok
          · obtain ⟨c1, u1, -, hok2⟩ := bind_eq_ok hok
            obtain ⟨c2, cs2, hok3, -⟩ := bind_eq_ok hok2
            exact ih hmem' rec json id c1 c2 cs2 hok3
          · split at hok
            · exact ih hmem' rec json id ctx ctx' cs hok
            · obtain ⟨c2, cs2, hok3, -⟩ := bind_eq_ok hok
              exact ih hmem' rec json id ctx c2 cs2 hok3
            · exact PRes.noConfusion hok
            · exact PRes.noConfusion hok

theorem parseF_unknown_not_ok (ora : Oracles) (k : String) (v : Value)
    (h : k ∉ recognizedKeys) :
    ∀ (fuel : Nat) (id : Url) (members : List (String × Value)) (depth : Nat) (ctx : Context),
      (k, v) ∈ members → Value.lookup members "$ref" = none →
      ∀ (ctx' : Context) (u : Url),
        parseF (fuel + 1) ora id (Value.obj members) depth ctx ≠ PRes.ok ctx' u := by
  intro fuel id members depth ctx hmem href ctx' u hok
  simp only [parseF] at hok
  split at hok
  · exact PRes.noConfusion hok
  · split at hok
    · exact PRes.noConfusion hok
    · split at hok
      · exact PRes.noConfusion hok
      · split at hok
        · exact PRes.noConfusion hok
        · split at hok
          · rename_i r heq
            rw [href] at heq
            exact Option.noConfusion heq
          · rename_i val heq
            rw [href] at heq
            exact Option.noConfusion heq
          · obtain ⟨c1, cs1, -, hok2⟩ := bind_eq_ok hok
            obtain ⟨c2, cs2, -, hok3⟩ := bind_eq_ok hok2
            obtain ⟨c3, cs3, hok4, -⟩ := bind_eq_ok hok3
            exact parseFieldsWith_unknown_not_ok ora k v h members hmem _
              (Value.obj members) _ c2 c3 cs3 hok4

/-- C2, amended.  A key that is not one of the recognized schema keywords
is not ignored on the keyword-loop path: the keyword handler for it is the
`unimplemented!()` arm (`src/schema/parse.rs` lines 262-265), the keyword
loop panics as soon as it reaches the key (whatever comes after it), a
condition list containing the key anywhere never compiles to a result, and
a document that contains such a key and no `$ref` never compiles
successfully — compilation ends in that panic or in an earlier keyword's
own error or panic.  (Alongside `$ref` the keyword loop never runs and
unrecognized siblings are ignored — that is claim C8's behaviour.) -/
theorem c2_unknown_key_never_ok (ora : Oracles) (k : String) (v : Value)
    (h : k ∉ recognizedKeys) :
    (∀ json : Value, pureField ora json k v = EP.panic) ∧
    (∀ (rest : List (String × Value)) (rec : Context → Url → Value → PRes Url) (json : Value)
      (id : Url) (ctx : Context),
      parseFieldsWith rec ora json id ctx ((k, v) :: rest) = PRes.panic ctx) ∧
    (∀ (l : List (String × Value)), (k, v) ∈ l →
      ∀ (rec : Context → Url → Value → PRes Url) (json : Value) (id : Url)
        (ctx ctx' : Context) (cs : List Condition),
        parseFieldsWith rec ora json id ctx l ≠ PRes.ok ctx' cs) ∧
    (∀ (fuel : Nat) (id : Url) (members : List (String × Value)) (depth : Nat) (ctx : Context),
      (k, v) ∈ members → Value.lookup members "$ref" = none →
      ∀ (ctx' : Context) (u : Url),
        parseF (fuel + 1) ora id (Value.obj members) depth ctx ≠ PRes.ok ctx' u) :=
  ⟨fun json => pureField_unknown ora json k v h,
   fun rest rec json id ctx => parseFieldsWith_unknown_head_panics ora k v h rest rec json id ctx,
   parseFieldsWith_unknown_not_ok ora k v h,
   parseF_unknown_not_ok ora k v h⟩

theorem c2_unknown_key_never_ok_witness :
    "frobnicate" ∉ recognizedKeys ∧
    Value.lookup [("frobnicate", Value.bool true), ("type", Value.str "string")] "$ref" =
      none ∧
    parseF 3 oraId "http://x/s"
      (Value.obj [("frobnicate", Value.bool true), ("type", Value.str "string")]) 0
      Context.empty ≠ PRes.ok Context.empty "http://x/s" :=
  ⟨by decide, rfl,
    (c2_unknown_key_never_ok oraId "frobnicate" (Value.bool true) (by decide)).2.2.2
      2 "http://x/s" [("frobnicate", Value.bool true), ("type", Value.str "string")] 0
      Context.empty (List.mem_cons_self _ _) rfl Context.empty "http://x/s"⟩

/-- C3, counterexample.  The spec's priority table assigns `Pattern`
priority 10, but `Condition::priority` has no `Pattern` arm, so a pattern
condition falls into the default arm and gets 1000. -/
theorem c3_counterexample :
    (Condition.Pattern ⟨"a"⟩).priority = 1000 ∧ (Condition.Pattern ⟨"a"⟩).priority ≠ 10 :=
  ⟨rfl, by decide⟩

theorem insertCond_perm (c : Condition) : ∀ l, (insertCond c l).Perm (c :: l) := by
  intro l
  induction l with
  | nil => exact List.Perm.refl [c]
  | cons d rest ih =>
    simp only [insertCond]
    by_cases hd : d.priority < c.priority
    · rw [if_pos hd]
      exact (ih.cons d).trans (List.Perm.swap c d rest)
    · rw [if_neg hd]

theorem sortConditions_perm : ∀ l : List Condition, (sortConditions l).Perm l := by
  intro l
  induction l with
  | nil => exact List.Perm.refl []
  | cons c rest ih => exact (insertCond_perm c (sortConditions rest)).trans (ih.cons c)

theorem mem_insertCond {x c : Condition} {l : List Condition} (hx : x ∈ insertCond c l) :
    x = c ∨ x ∈ l := by
  have := (insertCond_perm c l).mem_iff.mp hx
  simpa using this

theorem insertCond_sorted (c : Condition) :
    ∀ l, List.Pairwise (fun a b => a.priority ≤ b.priority) l →
      List.Pairwise (fun a b => a.priority ≤ b.priority) (insertCond c l) := by
  intro l
  induction l with
  | nil => intro _; simp [insertCond]
  | cons d rest ih =>
    intro hl
    rw [List.pairwise_cons] at hl
    obtain ⟨hd1, hd2⟩ := hl
    simp only [insertCond]
    by_cases hd : d.priority < c.priority
    · rw [if_pos hd]
      rw [List.pairwise_cons]
      refine ⟨?_, ih hd2⟩
      intro x hx
      rcases mem_insertCond hx with rfl | hx
      · exact Nat.le_of_lt hd
      · exact hd1 x hx
    · rw [if_neg hd]
      rw [List.pairwise_cons]
      refine ⟨?_, ?_⟩
      · intro x hx
        rcases List.mem_cons.mp hx with rfl | hx
        · exact Nat.le_of_not_lt hd
        · exact Nat.le_trans (Nat.le_of_not_lt hd) (hd1 x hx)
      · rw [List.pairwise_cons]
        exact ⟨hd1, hd2⟩

theorem sortConditions_sorted :
    ∀ l : List Condition,
      List.Pairwise (fun a b => a.priority ≤ b.priority) (sortConditions l) := by
  intro l
  induction l with
  | nil => simp [sortConditions]
  | cons c rest ih => exact insertCond_sorted c (sortConditions rest) ih

theorem insertCond_filter (c : Condition) (p : Nat) :
    ∀ l, (insertCond c l).filter (fun x => x.priority == p) =
      (if c.priority = p then [c] else []) ++ l.filter (fun x => x.priority == p) := by
  intro l
  induction l with
  | nil =>
    by_cases hc : c.priority = p
    · have hc' : (c.priority == p) = true := beq_iff_eq.mpr hc
      simp [insertCond, List.filter, hc, hc']
    · have hc' : (c.priority == p) = false := by simp [hc]
      simp [insertCond, List.filter, hc, hc']
  | cons d rest ih =>
    simp only [insertCond]
    by_cases hd : d.priority < c.priority
    · rw [if_pos hd]
      by_cases hc : c.priority = p
      · have hdp : ¬ d.priority = p := by omega
        have hdp' : (d.priority == p) = false := by simp [hdp]
        simp [List.filter, hdp', ih, hc]
      · by_cases hdp : d.priority = p
        · have hdp' : (d.priority == p) = true := beq_iff_eq.mpr hdp
          simp [List.filter, hdp', ih, hc]
        · have hdp' : (d.priority == p) = false := by simp [hdp]
          simp [List.filter, hdp', ih, hc]
    · rw [if_neg hd]
      by_cases hc : c.priority = p
      · have hc' : (c.priority == p) = true := beq_iff_eq.mpr hc
        simp [List.filter, hc, hc']
      · have hc' : (c.priority == p) = false := by simp [hc]
        simp [List.filter, hc, hc']

theorem sortConditions_filter (p : Nat) :
    ∀ l : List Condition, (sortConditions l).filter (fun x => x.priority == p) =
      l.filter (fun x => x.priority == p) := by
  intro l
  induction l with
  | nil => rfl
  | cons c rest ih =>
    show (insertCond c (sortConditions rest)).filter _ = _
    rw [insertCond_filter c p (sortConditions rest), ih]
    by_cases hc : c.priority = p
    · have hc' : (c.priority == p) = true := beq_iff_eq.mpr hc
      simp [List.filter, hc, hc']
    · have hc' : (c.priority == p) = false := by simp [hc]
      simp [List.filter, hc, hc']

/-- C3, amended.  `Context::parse` sorts its condition list with the
stable `sort_by_key(|c| c.priority())` (modelled by `sortConditions`,
which is proved here to permute, to sort ascending by priority, and to
preserve the relative order of equal priorities).  The priority table is
as the claim states it except for `Pattern`, which has no arm in
`Condition::priority` and falls into the default bucket 1000: `Type` is 0;
`Maximum`, `ExclusiveMaximum`, `Minimum`, `ExclusiveMinimum`, `MaxLength`,
`MinLength` and `Required` are 10; `Properties` is 20; `AllOf` and `AnyOf`
are 100; every other kind, `Pattern` included, is 1000. -/
theorem c3_priority_table_and_stable_sort :
    ((∀ ts, (Condition.TypeCond ts).priority = 0) ∧
     (∀ n, (Condition.Maximum n).priority = 10) ∧
     (∀ n, (Condition.ExclusiveMaximum n).priority = 10) ∧
     (∀ n, (Condition.Minimum n).priority = 10) ∧
     (∀ n, (Condition.ExclusiveMinimum n).priority = 10) ∧
     (∀ n, (Condition.MaxLength n).priority = 10) ∧
     (∀ n, (Condition.MinLength n).priority = 10) ∧
     (∀ ns, (Condition.Required ns).priority = 10) ∧
     (∀ ps qs a, (Condition.Properties ps qs a).priority = 20) ∧
     (∀ us, (Condition.AllOf us).priority = 100) ∧
     (∀ us, (Condition.AnyOf us).priority = 100) ∧
     (∀ re, (Condition.Pattern re).priority = 1000) ∧
     (∀ n, (Condition.MultipleOf n).priority = 1000) ∧
     (∀ ss a, (Condition.Items ss a).priority = 1000) ∧
     (∀ n, (Condition.MaxItems n).priority = 1000) ∧
     (∀ n, (Condition.MinItems n).priority = 1000) ∧
     (∀ b, (Condition.UniqueItems b).priority = 1000) ∧
     (∀ u, (Condition.Contains u).priority = 1000) ∧
     (∀ n, (Condition.MaxProperties n).priority = 1000) ∧
     (∀ n, (Condition.MinProperties n).priority = 1000) ∧
     (∀ ds, (Condition.Dependencies ds).priority = 1000) ∧
     (∀ u, (Condition.PropertyNames u).priority = 1000) ∧
     (∀ vs, (Condition.Enum vs).priority = 1000) ∧
     (∀ v, (Condition.Const v).priority = 1000) ∧
     (∀ us, (Condition.OneOf us).priority = 1000) ∧
     (∀ u, (Condition.Not u).priority = 1000)) ∧
    (∀ l : List Condition,
      (sortConditions l).Perm l ∧
      List.Pairwise (fun a b => a.priority ≤ b.priority) (sortConditions l) ∧
      ∀ p, (sortConditions l).filter (fun x => x.priority == p) =
        l.filter (fun x => x.priority == p)) :=
  ⟨⟨fun _ => rfl, fun _ => rfl, fun _ => rfl, fun _ => rfl, fun _ => rfl, fun _ => rfl,
    fun _ => rfl, fun _ => rfl, fun _ _ _ => rfl, fun _ => rfl, fun _ => rfl, fun _ => rfl,
    fun _ => rfl, fun _ _ => rfl, fun _ => rfl, fun _ => rfl, fun _ => rfl, fun _ => rfl,
    fun _ => rfl, fun _ => rfl, fun _ => rfl, fun _ => rfl, fun _ => rfl, fun _ => rfl,
    fun _ => rfl, fun _ => rfl⟩,
   fun l => ⟨sortConditions_perm l, sortConditions_sorted l, fun p => sortConditions_filter p l⟩⟩

theorem validate_of_body_val {recN : JsonSchemaInner → Value → VOut} {ora : Oracles}
    {ctx : Context} {c : Condition} {v : Value} {b : Bool}
    (h : Condition.bodyEval recN ora ctx c v = EOut.val b) :
    Condition.validate recN ora ctx c v = VOut.ok ∨
    Condition.validate recN ora ctx c v = VOut.err (ValidationError.ConditionFailed c) := by
  unfold Condition.validate
  rw [h]
  cases b
  · exact Or.inr rfl
  · exact Or.inl rfl

theorem validate_of_body_panic {recN : JsonSchemaInner → Value → VOut} {ora : Oracles}
    {ctx : Context} {c : Condition} {v : Value}
    (h : Condition.bodyEval recN ora ctx c v = EOut.panic) :
    Condition.validate recN ora ctx c v = VOut.panic := by
  unfold Condition.validate
  rw [h]

/-- C4, counterexample.  A registry node carrying a `OneOf` condition makes
validation panic on any value — the `OneOf` arm of `Condition::validate`
is the `panic!("Condition {:?} not implemented")` default — so validation
does not always return success or a `ValidationError`. -/
theorem c4_counterexample :
    validateNodeF 2 oraId Context.empty ⟨none, none, Validator.Conditions [Condition.OneOf []]⟩
      Value.null = VOut.panic ∧ VOut.panic ≠ VOut.ok :=
  ⟨rfl, fun h => VOut.noConfusion h⟩

/-- C4, amended.  Conditions dispatch totally only on the implemented
arms: the non-recursive implemented conditions (`Maximum`, `Minimum`,
`ExclusiveMinimum`, `MaxLength`, `MinLength`, `Pattern`, `Required`,
`Type`, `Const`) always return success or their own `ConditionFailed` —
type-guarded, never panicking — while `MultipleOf`, `ExclusiveMaximum`,
`MaxItems`, `MinItems`, `UniqueItems`, `MaxProperties`, `MinProperties`,
`Dependencies`, `PropertyNames`, `Enum`, `OneOf` and `Not` hit the
`panic!` arm on every value, of every type. -/
theorem c4_implemented_total_unimplemented_panic :
    ∀ (recN : JsonSchemaInner → Value → VOut) (ora : Oracles) (ctx : Context) (v : Value),
      ((∀ m, Condition.validate recN ora ctx (Condition.Maximum m) v = VOut.ok ∨
          Condition.validate recN ora ctx (Condition.Maximum m) v =
            VOut.err (ValidationError.ConditionFailed (Condition.Maximum m))) ∧
       (∀ m, Condition.validate recN ora ctx (Condition.Minimum m) v = VOut.ok ∨
          Condition.validate recN ora ctx (Condition.Minimum m) v =
            VOut.err (ValidationError.ConditionFailed (Condition.Minimum m))) ∧
       (∀ m, Condition.validate recN ora ctx (Condition.ExclusiveMinimum m) v = VOut.ok ∨
          Condition.validate recN ora ctx (Condition.ExclusiveMinimum m) v =
            VOut.err (ValidationError.ConditionFailed (Condition.ExclusiveMinimum m))) ∧
       (∀ n, Condition.validate recN ora ctx (Condition.MaxLength n) v = VOut.ok ∨
          Condition.validate recN ora ctx (Condition.MaxLength n) v =
            VOut.err (ValidationError.ConditionFailed (Condition.MaxLength n))) ∧
       (∀ n, Condition.validate recN ora ctx (Condition.MinLength n) v = VOut.ok ∨
          Condition.validate recN ora ctx (Condition.MinLength n) v =
            VOut.err (ValidationError.ConditionFailed (Condition.MinLength n))) ∧
       (∀ re, Condition.validate recN ora ctx (Condition.Pattern re) v = VOut.ok ∨
          Condition.validate recN ora ctx (Condition.Pattern re) v =
            VOut.err (ValidationError.ConditionFailed (Condition.Pattern re))) ∧
       (∀ ns, Condition.validate recN ora ctx (Condition.Required ns) v = VOut.ok ∨
          Condition.validate recN ora ctx (Condition.Required ns) v =
            VOut.err (ValidationError.ConditionFailed (Condition.Required ns))) ∧
       (∀ ts, Condition.validate recN ora ctx (Condition.TypeCond ts) v = VOut.ok ∨
          Condition.validate recN ora ctx (Condition.TypeCond ts) v =
            VOut.err (ValidationError.ConditionFailed (Condition.TypeCond ts))) ∧
       (∀ w, Condition.validate recN ora ctx (Condition.Const w) v = VOut.ok ∨
          Condition.validate recN ora ctx (Condition.Const w) v =
            VOut.err (ValidationError.ConditionFailed (Condition.Const w)))) ∧
      ((∀ n, Condition.validate recN ora ctx (Condition.MultipleOf n) v = VOut.panic) ∧
       (∀ m, Condition.validate recN ora ctx (Condition.ExclusiveMaximum m) v = VOut.panic) ∧
       (∀ n, Condition.validate recN ora ctx (Condition.MaxItems n) v = VOut.panic) ∧
       (∀ n, Condition.validate recN ora ctx (Condition.MinItems n) v = VOut.panic) ∧
       (∀ b, Condition.validate recN ora ctx (Condition.UniqueItems b) v = VOut.panic) ∧
       (∀ n, Condition.validate recN ora ctx (Condition.MaxProperties n) v = VOut.panic) ∧
       (∀ n, Condition.validate recN ora ctx (Condition.MinProperties n) v = VOut.panic) ∧
       (∀ ds, Condition.validate recN ora ctx (Condition.Dependencies ds) v = VOut.panic) ∧
       (∀ u, Condition.validate recN ora ctx (Condition.PropertyNames u) v = VOut.panic) ∧
       (∀ vs, Condition.validate recN ora ctx (Condition.Enum vs) v = VOut.panic) ∧
       (∀ us, Condition.validate recN ora ctx (Condition.OneOf us) v = VOut.panic) ∧
       (∀ u, Condition.validate recN ora ctx (Condition.Not u) v = VOut.panic)) := by
  intro recN ora ctx v
  refine ⟨⟨?_, ?_, ?_, ?_, ?_, ?_, ?_, ?_, ?_⟩,
    fun n => validate_of_body_panic rfl, fun m => validate_of_body_panic rfl,
    fun n => validate_of_body_panic rfl, fun n => validate_of_body_panic rfl,
    fun b => validate_of_body_panic rfl, fun n => validate_of_body_panic rfl,
    fun n => validate_of_body_panic rfl, fun ds => validate_of_body_panic rfl,
    fun u => validate_of_body_panic rfl, fun vs => validate_of_body_panic rfl,
    fun us => validate_of_body_panic rfl, fun u => validate_of_body_panic rfl⟩
  · intro m; cases v <;> exact validate_of_body_val rfl
  · intro m; cases v <;> exact validate_of_body_val rfl
  · intro m; cases v <;> exact validate_of_body_val rfl
  · intro n; cases v <;> exact validate_of_body_val rfl
  · intro n; cases v <;> exact validate_of_body_val rfl
  · intro re; cases v <;> exact validate_of_body_val rfl
  · intro ns; cases v <;> exact validate_of_body_val rfl
  · intro ts; exact validate_of_body_val rfl
  · intro w; exact validate_of_body_val rfl

/-- C5, counterexample.  The metaschema URI is absent from the empty
registry, yet evaluating `AllOf [METASCHEMA_URI]` does not return
`BadReference(METASCHEMA_URI)`: `Context::get` hits its `unimplemented!()`
branch for that URI first, so validation panics. -/
theorem c5_counterexample :
    Context.empty METASCHEMA_URI = none ∧
    validateNodeF 2 oraId Context.empty
      ⟨none, none, Validator.Conditions [Condition.AllOf [METASCHEMA_URI]]⟩ Value.null =
      VOut.panic ∧
    VOut.panic ≠ VOut.err (ValidationError.BadReference METASCHEMA_URI) :=
  ⟨rfl, rfl, fun h => VOut.noConfusion h⟩

/-- C5, amended.  Whenever evaluation of `AllOf`, `AnyOf`, `Contains`,
`Items`, `Properties` or a `Reference` validator looks up a schema URI
that is absent from the registry, validation returns
`BadReference(uri)` — provided the URI is not the metaschema URI, for
which `Context::get` panics (`unimplemented!()`) instead, even when
absent. -/
theorem c5_bad_reference (recN : JsonSchemaInner → Value → VOut) (ora : Oracles) (ctx : Context)
    (u : Url) (v : Value) (rest : List Url) (k : String) (w : Value) (xs : List Value)
    (title desc : Option String) (fuel : Nat)
    (hn : u ≠ METASCHEMA_URI) (h0 : ctx u = none) :
    Condition.validate recN ora ctx (Condition.AllOf (u :: rest)) v =
      VOut.err (ValidationError.BadReference u) ∧
    Condition.validate recN ora ctx (Condition.AnyOf (u :: rest)) v =
      VOut.err (ValidationError.BadReference u) ∧
    Condition.validate recN ora ctx (Condition.Contains u) (Value.arr xs) =
      VOut.err (ValidationError.BadReference u) ∧
    Condition.validate recN ora ctx (Condition.Items [u] none) (Value.arr (w :: xs)) =
      VOut.err (ValidationError.BadReference u) ∧
    Condition.validate recN ora ctx (Condition.Properties [(k, u)] [] none)
      (Value.obj [(k, w)]) = VOut.err (ValidationError.BadReference u) ∧
    validateNodeF (fuel + 1) ora ctx ⟨desc, title, Validator.Reference u⟩ v =
      VOut.err (ValidationError.BadReference u) := by
  have hget : ctx.get u = GetOut.missing := by
    simp [Context.get, hn, h0]
  refine ⟨?_, ?_, ?_, ?_, ?_, ?_⟩
  · simp [Condition.validate, Condition.bodyEval, valAllOf, checkUriWith, hget]
  · simp [Condition.validate, Condition.bodyEval, valAnyOf, hget]
  · simp [Condition.validate, Condition.bodyEval, hget]
  · simp [Condition.validate, Condition.bodyEval, valItems, checkUriWith, hget]
  · simp [Condition.validate, Condition.bodyEval, valPropsMembers, valMember, checkUriWith,
      List.lookup, hget]
  · simp [validateNodeF, checkUriWith, hget]

theorem c5_bad_reference_witness :
    "http://missing/" ≠ METASCHEMA_URI ∧ Context.empty "http://missing/" = none ∧
    (Condition.validate (fun _ _ => VOut.ok) oraId Context.empty
        (Condition.AllOf ["http://missing/"]) Value.null =
      VOut.err (ValidationError.BadReference "http://missing/") ∧
     Condition.validate (fun _ _ => VOut.ok) oraId Context.empty
        (Condition.AnyOf ["http://missing/"]) Value.null =
      VOut.err (ValidationError.BadReference "http://missing/") ∧
     Condition.validate (fun _ _ => VOut.ok) oraId Context.empty
        (Condition.Contains "http://missing/") (Value.arr []) =
      VOut.err (ValidationError.BadReference "http://missing/") ∧
     Condition.validate (fun _ _ => VOut.ok) oraId Context.empty
        (Condition.Items ["http://missing/"] none) (Value.arr (Value.null :: [])) =
      VOut.err (ValidationError.BadReference "http://missing/") ∧
     Condition.validate (fun _ _ => VOut.ok) oraId Context.empty
        (Condition.Properties [("a", "http://missing/")] [] none)
        (Value.obj [("a", Value.null)]) =
      VOut.err (ValidationError.BadReference "http://missing/") ∧
     validateNodeF 1 oraId Context.empty ⟨none, none, Validator.Reference "http://missing/"⟩
        Value.null = VOut.err (ValidationError.BadReference "http://missing/")) :=
  ⟨by decide, rfl,
    c5_bad_reference (fun _ _ => VOut.ok) oraId Context.empty "http://missing/" Value.null []
      "a" Value.null [] none none 0 (by decide) rfl⟩

/-- Is the value a JSON number? -/
def Value.isNumber : Value → Bool
  | Value.num _ => true
  | _ => false

/-- Is the value a JSON string? -/
def Value.isString : Value → Bool
  | Value.str _ => true
  | _ => false

/-- Is the value a JSON array? -/
def Value.isArray : Value → Bool
  | Value.arr _ => true
  | _ => false

/-- Is the value a JSON object? -/
def Value.isObject : Value → Bool
  | Value.obj _ => true
  | _ => false

/-- The compile-then-validate pipeline of the crate's external interface:
`Context::make_schema` on a fresh registry followed by the returned
handle's `validate` (`JsonSchema::validate` delegates to the node the
handle points at). -/
def compileValidate (fuel : Nat) (ora : Oracles) (base : Url) (doc : Value) (v : Value) :
    Option VOut :=
  match makeSchema fuel ora Context.empty base doc with
  | MSOut.ok ctx u =>
    match ctx.get u with
    | GetOut.found n => some (validateNodeF fuel ora ctx n v)
    | _ => none
  | _ => none

/-- C6, counterexample.  `MaxItems` applies to arrays, so by type
orthogonality a string should satisfy it vacuously; instead the `MaxItems`
arm of `Condition::validate` is unimplemented and validation panics. -/
theorem c6_counterexample :
    validateNodeF 2 oraId Context.empty ⟨none, none, Validator.Conditions [Condition.MaxItems 3]⟩
      (Value.str "abc") = VOut.panic ∧ VOut.panic ≠ VOut.ok :=
  ⟨rfl, fun h => VOut.noConfusion h⟩

/-- C6, amended.  Type orthogonality — vacuous satisfaction on values of a
non-applicable JSON type — holds for the implemented conditions: the
numeric comparisons on non-numbers, the length/pattern checks on
non-strings, `Items`/`Contains` on non-arrays and `Properties`/`Required`
on non-objects all succeed; and concretely, the compiled schema
`{"maximum": 5}` accepts the string `"abc"`, rejects `6` with
`ConditionFailed(Maximum 5)`, and accepts `4`. -/
theorem c6_type_orthogonality :
    (∀ (recN : JsonSchemaInner → Value → VOut) (ora : Oracles) (ctx : Context) (v : Value),
      (v.isNumber = false → ∀ m,
        Condition.validate recN ora ctx (Condition.Maximum m) v = VOut.ok ∧
        Condition.validate recN ora ctx (Condition.Minimum m) v = VOut.ok ∧
        Condition.validate recN ora ctx (Condition.ExclusiveMinimum m) v = VOut.ok) ∧
      (v.isString = false →
        (∀ n, Condition.validate recN ora ctx (Condition.MaxLength n) v = VOut.ok ∧
          Condition.validate recN ora ctx (Condition.MinLength n) v = VOut.ok) ∧
        (∀ re, Condition.validate recN ora ctx (Condition.Pattern re) v = VOut.ok)) ∧
      (v.isArray = false →
        (∀ ss a, Condition.validate recN ora ctx (Condition.Items ss a) v = VOut.ok) ∧
        (∀ u, Condition.validate recN ora ctx (Condition.Contains u) v = VOut.ok)) ∧
      (v.isObject = false →
        (∀ ps qs a, Condition.validate recN ora ctx (Condition.Properties ps qs a) v = VOut.ok) ∧
        (∀ ns, Condition.validate recN ora ctx (Condition.Required ns) v = VOut.ok))) ∧
    compileValidate 2 oraId "http://x/s" docMax5 (Value.str "abc") = some VOut.ok ∧
    compileValidate 2 oraId "http://x/s" docMax5 (Value.num ⟨6, 1⟩) =
      some (VOut.err (ValidationError.ConditionFailed (Condition.Maximum ⟨5, 1⟩))) ∧
    compileValidate 2 oraId "http://x/s" docMax5 (Value.num ⟨4, 1⟩) = some VOut.ok := by
  refine ⟨?_, rfl, rfl, rfl⟩
  intro recN ora ctx v
  refine ⟨?_, ?_, ?_, ?_⟩
  · intro h m
    cases v with
    | num n => simp [Value.isNumber] at h
    | null => exact ⟨rfl, rfl, rfl⟩
    | bool b => exact ⟨rfl, rfl, rfl⟩
    | str s => exact ⟨rfl, rfl, rfl⟩
    | arr xs => exact ⟨rfl, rfl, rfl⟩
    | obj ms => exact ⟨rfl, rfl, rfl⟩
  · intro h
    cases v with
    | str s => simp [Value.isString] at h
    | null => exact ⟨fun n => ⟨rfl, rfl⟩, fun re => rfl⟩
    | bool b => exact ⟨fun n => ⟨rfl, rfl⟩, fun re => rfl⟩
    | num n => exact ⟨fun n => ⟨rfl, rfl⟩, fun re => rfl⟩
    | arr xs => exact ⟨fun n => ⟨rfl, rfl⟩, fun re => rfl⟩
    | obj ms => exact ⟨fun n => ⟨rfl, rfl⟩, fun re => rfl⟩
  · intro h
    cases v with
    | arr xs => simp [Value.isArray] at h
    | null => exact ⟨fun ss a => rfl, fun u => rfl⟩
    | bool b => exact ⟨fun ss a => rfl, fun u => rfl⟩
    | num n => exact ⟨fun ss a => rfl, fun u => rfl⟩
    | str s => exact ⟨fun ss a => rfl, fun u => rfl⟩
    | obj ms => exact ⟨fun ss a => rfl, fun u => rfl⟩
  · intro h
    cases v with
    | obj ms => simp [Value.isObject] at h
    | null => exact ⟨fun ps qs a => rfl, fun ns => rfl⟩
    | bool b => exact ⟨fun ps qs a => rfl, fun ns => rfl⟩
    | num n => exact ⟨fun ps qs a => rfl, fun ns => rfl⟩
    | str s => exact ⟨fun ps qs a => rfl, fun ns => rfl⟩
    | arr xs => exact ⟨fun ps qs a => rfl, fun ns => rfl⟩

theorem c6_type_orthogonality_witness :
    (Value.str "s").isNumber = false ∧
    Condition.validate (fun _ _ => VOut.ok) oraId Context.empty (Condition.Maximum ⟨5, 1⟩)
      (Value.str "s") = VOut.ok :=
  ⟨rfl, ((c6_type_orthogonality.1 (fun _ _ => VOut.ok) oraId Context.empty
    (Value.str "s")).1 rfl ⟨5, 1⟩).1⟩

theorem valPatterns_val_iff (recN : JsonSchemaInner → Value → VOut) (ora : Oracles)
    (ctx : Context) (k : String) (x : Value) :
    ∀ (pats : List (RegexWrapper × Url)) (matched b : Bool),
      valPatterns recN ora ctx k x pats matched = EOut.val b ↔
      ((∀ pu ∈ pats, ora.regexMatch pu.1.pattern k = true →
          checkUriWith recN ctx pu.2 x = VOut.ok) ∧
       b = (matched || pats.any (fun pu => ora.regexMatch pu.1.pattern k))) := by
  intro pats
  induction pats with
  | nil =>
    intro matched b
    simp only [valPatterns, List.any_nil, Bool.or_false, List.not_mem_nil]
    constructor
    · intro h
      exact ⟨fun pu hpu => absurd hpu (by simp), (EOut.val.inj h).symm⟩
    · rintro ⟨-, rfl⟩
      rfl
  | cons pu t ih =>
    intro matched b
    obtain ⟨re, u⟩ := pu
    simp only [valPatterns]
    by_cases hm : ora.regexMatch re.pattern k = true
    · rw [if_pos hm]
      cases hcu : checkUriWith recN ctx u x with
      | ok =>
        show valPatterns recN ora ctx k x t true = EOut.val b ↔ _
        rw [ih true b]
        constructor
        · rintro ⟨h1, h2⟩
          refine ⟨?_, ?_⟩
          · rintro pu hpu hpm
            rcases List.mem_cons.mp hpu with h | h
            · subst h; exact hcu
            · exact h1 pu h hpm
          · simp only [List.any_cons, hm, Bool.true_or, Bool.or_true] at h2 ⊢
            exact h2
        · rintro ⟨h1, h2⟩
          refine ⟨fun pu hpu hpm => h1 pu (List.mem_cons_of_mem _ hpu) hpm, ?_⟩
          simp only [List.any_cons, hm, Bool.true_or, Bool.or_true] at h2 ⊢
          exact h2
      | err e =>
        show EOut.err e = EOut.val b ↔ _
        constructor
        · intro h; exact EOut.noConfusion h
        · rintro ⟨h1, -⟩
          have h2 := h1 (re, u) (List.mem_cons_self _ _) hm
          rw [hcu] at h2
          exact VOut.noConfusion h2
      | panic =>
        show EOut.panic = EOut.val b ↔ _
        constructor
        · intro h; exact EOut.noConfusion h
        · rintro ⟨h1, -⟩
          have h2 := h1 (re, u) (List.mem_cons_self _ _) hm
          rw [hcu] at h2
          exact VOut.noConfusion h2
      | fuelOut =>
        show EOut.fuelOut = EOut.val b ↔ _
        constructor
        · intro h; exact EOut.noConfusion h
        · rintro ⟨h1, -⟩
          have h2 := h1 (re, u) (List.mem_cons_self _ _) hm
          rw [hcu] at h2
          exact VOut.noConfusion h2
    · rw [if_neg hm]
      have hm' : ora.regexMatch re.pattern k = false := by
        cases h' : ora.regexMatch re.pattern k
        · rfl
        · exact absurd h' hm
      rw [ih matched b]
      constructor
      · rintro ⟨h1, h2⟩
        refine ⟨?_, ?_⟩
        · rintro pu hpu hpm
          rcases List.mem_cons.mp hpu with h | h
          · subst h; exact absurd hpm hm
          · exact h1 pu h hpm
        · simp only [List.any_cons, hm', Bool.false_or]
          exact h2
      · rintro ⟨h1, h2⟩
        refine ⟨fun pu hpu hpm => h1 pu (List.mem_cons_of_mem _ hpu) hpm, ?_⟩
        simp only [List.any_cons, hm', Bool.false_or] at h2
        exact h2

theorem valMemberRest_val_iff (recN : JsonSchemaInner → Value → VOut) (ora : Oracles)
    (ctx : Context) (pats : List (RegexWrapper × Url)) (addl : Option Url) (k : String)
    (x : Value) (namedHit : Bool) :
    valMemberRest recN ora ctx pats addl k x namedHit = EOut.val true ↔
    ((∀ pu ∈ pats, ora.regexMatch pu.1.pattern k = true →
        checkUriWith recN ctx pu.2 x = VOut.ok) ∧
     ((namedHit = false ∧ pats.any (fun pu => ora.regexMatch pu.1.pattern k) = false) →
        ∀ u, addl = some u → checkUriWith recN ctx u x = VOut.ok)) := by
  unfold valMemberRest
  split
  case _ patHit hv =>
    rw [valPatterns_val_iff] at hv
    obtain ⟨h1, h2⟩ := hv
    rw [Bool.false_or] at h2
    subst h2
    by_cases hhit : (namedHit || pats.any (fun pu => ora.regexMatch pu.1.pattern k)) = true
    · rw [if_pos hhit]
      simp only [true_iff]
      refine ⟨h1, ?_⟩
      rintro ⟨hn, hp⟩ u hu
      rw [hn, hp] at hhit
      exact absurd hhit (by simp)
    · rw [if_neg hhit]
      have hn : namedHit = false := by
        cases h' : namedHit
        · rfl
        · rw [h'] at hhit; exact absurd (by simp) hhit
      have hp : pats.any (fun pu => ora.regexMatch pu.1.pattern k) = false := by
        cases h' : pats.any (fun pu => ora.regexMatch pu.1.pattern k)
        · rfl
        · rw [h'] at hhit; exact absurd (by simp) hhit
      split
      case _ u =>
        split
        case _ hcu =>
          exact iff_of_true rfl
            ⟨h1, fun _ u' hu' => by rw [← Option.some.inj hu']; exact hcu⟩
        case _ e hcu =>
          constructor
          · intro h; exact EOut.noConfusion h
          · rintro ⟨-, h3⟩
            have h4 := h3 ⟨hn, hp⟩ u rfl
            rw [hcu] at h4
            exact VOut.noConfusion h4
        case _ hcu =>
          constructor
          · intro h; exact EOut.noConfusion h
          · rintro ⟨-, h3⟩
            have h4 := h3 ⟨hn, hp⟩ u rfl
            rw [hcu] at h4
            exact VOut.noConfusion h4
        case _ hcu =>
          constructor
          · intro h; exact EOut.noConfusion h
          · rintro ⟨-, h3⟩
            have h4 := h3 ⟨hn, hp⟩ u rfl
            rw [hcu] at h4
            exact VOut.noConfusion h4
      case _ =>
        exact iff_of_true rfl ⟨h1, fun _ u' hu' => Option.noConfusion hu'⟩
  case _ e hv =>
    constructor
    · intro h; exact EOut.noConfusion h
    · rintro ⟨h1, -⟩
      have h4 := (valPatterns_val_iff recN ora ctx k x pats false
        (false || pats.any (fun pu => ora.regexMatch pu.1.pattern k))).mpr ⟨h1, rfl⟩
      rw [hv] at h4
      exact EOut.noConfusion h4
  case _ hv =>
    constructor
    · intro h; exact EOut.noConfusion h
    · rintro ⟨h1, -⟩
      have h4 := (valPatterns_val_iff recN ora ctx k x pats false
        (false || pats.any (fun pu => ora.regexMatch pu.1.pattern k))).mpr ⟨h1, rfl⟩
      rw [hv] at h4
      exact EOut.noConfusion h4
  case _ hv =>
    constructor
    · intro h; exact EOut.noConfusion h
    · rintro ⟨h1, -⟩
      have h4 := (valPatterns_val_iff recN ora ctx k x pats false
        (false || pats.any (fun pu => ora.regexMatch pu.1.pattern k))).mpr ⟨h1, rfl⟩
      rw [hv] at h4
      exact EOut.noConfusion h4

theorem any_match_false_iff (ora : Oracles) (k : String) (pats : List (RegexWrapper × Url)) :
    pats.any (fun pu => ora.regexMatch pu.1.pattern k) = false ↔
    ∀ pu ∈ pats, ora.regexMatch pu.1.pattern k = false := by
  simp [List.any_eq_false]

theorem valMemberRest_val_true {recN : JsonSchemaInner → Value → VOut} {ora : Oracles}
    {ctx : Context} {pats : List (RegexWrapper × Url)} {addl : Option Url} {k : String}
    {x : Value} {namedHit b : Bool}
    (h : valMemberRest recN ora ctx pats addl k x namedHit = EOut.val b) : b = true := by
  unfold valMemberRest at h
  split at h
  case _ patHit hv =>
    split at h
    · exact (EOut.val.inj h).symm
    · split at h
      · split at h
        · exact (EOut.val.inj h).symm
        · exact EOut.noConfusion h
        · exact EOut.noConfusion h
        · exact EOut.noConfusion h
      · exact (EOut.val.inj h).symm
  case _ e hv => exact EOut.noConfusion h
  case _ hv => exact EOut.noConfusion h
  case _ hv => exact EOut.noConfusion h

theorem valMember_val_true {recN : JsonSchemaInner → Value → VOut} {ora : Oracles}
    {ctx : Context} {props : List (String × Url)} {pats : List (RegexWrapper × Url)}
    {addl : Option Url} {k : String} {x : Value} {b : Bool}
    (h : valMember recN ora ctx props pats addl k x = EOut.val b) : b = true := by
  unfold valMember at h
  split at h
  case _ u heq =>
    split at h
    · exact valMemberRest_val_true h
    · exact EOut.noConfusion h
    · exact EOut.noConfusion h
    · exact EOut.noConfusion h
  case _ heq => exact valMemberRest_val_true h

theorem valMember_val_iff (recN : JsonSchemaInner → Value → VOut) (ora : Oracles)
    (ctx : Context) (props : List (String × Url)) (pats : List (RegexWrapper × Url))
    (addl : Option Url) (k : String) (x : Value) :
    valMember recN ora ctx props pats addl k x = EOut.val true ↔
    ((∀ u, List.lookup k props = some u → checkUriWith recN ctx u x = VOut.ok) ∧
     (∀ pu ∈ pats, ora.regexMatch pu.1.pattern k = true →
        checkUriWith recN ctx pu.2 x = VOut.ok) ∧
     ((List.lookup k props = none ∧
        (∀ pu ∈ pats, ora.regexMatch pu.1.pattern k = false)) →
        ∀ u, addl = some u → checkUriWith recN ctx u x = VOut.ok)) := by
  unfold valMember
  split
  case _ u heq =>
    split
    case _ hcu =>
      rw [valMemberRest_val_iff]
      constructor
      · rintro ⟨h1, -⟩
        refine ⟨?_, h1, ?_⟩
        · intro u' hu'
          rw [heq] at hu'
          rw [← Option.some.inj hu']
          exact hcu
        · rintro ⟨hnone, -⟩
          rw [heq] at hnone
          exact Option.noConfusion hnone
      · rintro ⟨-, h2, -⟩
        exact ⟨h2, by rintro ⟨hfalse, -⟩; exact Bool.noConfusion hfalse⟩
    case _ e hcu =>
      constructor
      · intro h; exact EOut.noConfusion h
      · rintro ⟨h1, -, -⟩
        have h4 := h1 u heq
        rw [hcu] at h4
        exact VOut.noConfusion h4
    case _ hcu =>
      constructor
      · intro h; exact EOut.noConfusion h
      · rintro ⟨h1, -, -⟩
        have h4 := h1 u heq
        rw [hcu] at h4
        exact VOut.noConfusion h4
    case _ hcu =>
      constructor
      · intro h; exact EOut.noConfusion h
      · rintro ⟨h1, -, -⟩
        have h4 := h1 u heq
        rw [hcu] at h4
        exact VOut.noConfusion h4
  case _ heq =>
    rw [valMemberRest_val_iff]
    constructor
    · rintro ⟨h1, h2⟩
      refine ⟨?_, h1, ?_⟩
      · intro u' hu'
        rw [heq] at hu'
        exact Option.noConfusion hu'
      · rintro ⟨-, hnomatch⟩
        exact h2 ⟨rfl, (any_match_false_iff ora k pats).mpr hnomatch⟩
    · rintro ⟨-, h2, h3⟩
      refine ⟨h2, ?_⟩
      rintro ⟨-, hanyfalse⟩
      exact h3 ⟨heq, (any_match_false_iff ora k pats).mp hanyfalse⟩

theorem valPropsMembers_val_true_iff (recN : JsonSchemaInner → Value → VOut) (ora : Oracles)
    (ctx : Context) (props : List (String × Url)) (pats : List (RegexWrapper × Url))
    (addl : Option Url) :
    ∀ mem : List (String × Value),
      valPropsMembers recN ora ctx props pats addl mem = EOut.val true ↔
      ∀ kv ∈ mem, valMember recN ora ctx props pats addl kv.1 kv.2 = EOut.val true := by
  intro mem
  induction mem with
  | nil => simp [valPropsMembers]
  | cons kv t ih =>
    obtain ⟨k, x⟩ := kv
    simp only [valPropsMembers]
    split
    case _ b heq =>
      rw [ih]
      have hb : b = true := valMember_val_true heq
      subst hb
      constructor
      · intro h
        intro kv hkv
        rcases List.mem_cons.mp hkv with h' | h'
        · rw [h']; exact heq
        · exact h kv h'
      · intro h kv hkv
        exact h kv (List.mem_cons_of_mem _ hkv)
    case _ e heq =>
      constructor
      · intro h; exact EOut.noConfusion h
      · intro h
        have h4 := h (k, x) (List.mem_cons_self _ _)
        rw [heq] at h4
        exact EOut.noConfusion h4
    case _ heq =>
      constructor
      · intro h; exact EOut.noConfusion h
      · intro h
        have h4 := h (k, x) (List.mem_cons_self _ _)
        rw [heq] at h4
        exact EOut.noConfusion h4
    case _ heq =>
      constructor
      · intro h; exact EOut.noConfusion h
      · intro h
        have h4 := h (k, x) (List.mem_cons_self _ _)
        rw [heq] at h4
        exact EOut.noConfusion h4

theorem validate_ok_iff_body_val_true {recN : JsonSchemaInner → Value → VOut} {ora : Oracles}
    {ctx : Context} {c : Condition} {v : Value} :
    Condition.validate recN ora ctx c v = VOut.ok ↔
    Condition.bodyEval recN ora ctx c v = EOut.val true := by
  unfold Condition.validate
  split
  case _ heq => exact iff_of_true rfl heq
  case _ heq =>
    refine iff_of_false (fun h => VOut.noConfusion h) (fun h => ?_)
    rw [h] at heq
    exact Bool.noConfusion (EOut.val.inj heq)
  case _ e heq =>
    refine iff_of_false (fun h => VOut.noConfusion h) (fun h => ?_)
    rw [h] at heq
    exact EOut.noConfusion heq
  case _ heq =>
    refine iff_of_false (fun h => VOut.noConfusion h) (fun h => ?_)
    rw [h] at heq
    exact EOut.noConfusion heq
  case _ heq =>
    refine iff_of_false (fun h => VOut.noConfusion h) (fun h => ?_)
    rw [h] at heq
    exact EOut.noConfusion heq

/-- C7.  Checking an object against a combined `Properties` condition
succeeds exactly when every member passes its applicable checks: the
exact-name schema whenever the named map contains the key, AND every
pattern schema whose regex matches the key (several may apply at once);
only when neither an exact-name nor a pattern schema applied is the member
checked against the `additionalProperties` schema, if one is present, and
otherwise it is unconstrained.  `checkUriWith` is the lookup-then-validate
step, so a member check also fails when its schema URI is dangling. -/
theorem c7_properties_semantics (recN : JsonSchemaInner → Value → VOut) (ora : Oracles)
    (ctx : Context) (props : List (String × Url)) (pats : List (RegexWrapper × Url))
    (addl : Option Url) (mem : List (String × Value)) :
    Condition.validate recN ora ctx (Condition.Properties props pats addl) (Value.obj mem) =
      VOut.ok ↔
    ∀ kv ∈ mem,
      (∀ u, List.lookup kv.1 props = some u → checkUriWith recN ctx u kv.2 = VOut.ok) ∧
      (∀ pu ∈ pats, ora.regexMatch pu.1.pattern kv.1 = true →
        checkUriWith recN ctx pu.2 kv.2 = VOut.ok) ∧
      ((List.lookup kv.1 props = none ∧
        (∀ pu ∈ pats, ora.regexMatch pu.1.pattern kv.1 = false)) →
        ∀ u, addl = some u → checkUriWith recN ctx u kv.2 = VOut.ok) := by
  rw [validate_ok_iff_body_val_true]
  show valPropsMembers recN ora ctx props pats addl mem = EOut.val true ↔ _
  rw [valPropsMembers_val_true_iff]
  exact forall_congr' fun kv => forall_congr' fun _ =>
    valMember_val_iff recN ora ctx props pats addl kv.1 kv.2

theorem c7_properties_semantics_witness :
    Condition.validate (validateNodeF 1 oraId (Context.empty.put "u1" ⟨none, none,
        Validator.Anything⟩)) oraId (Context.empty.put "u1" ⟨none, none, Validator.Anything⟩)
      (Condition.Properties [("a", "u1")] [] none) (Value.obj [("a", Value.bool true)]) =
      VOut.ok :=
  (c7_properties_semantics (validateNodeF 1 oraId (Context.empty.put "u1" ⟨none, none,
      Validator.Anything⟩)) oraId (Context.empty.put "u1" ⟨none, none, Validator.Anything⟩)
    [("a", "u1")] [] none [("a", Value.bool true)]).mpr
    (by
      rintro kv hkv
      rcases List.mem_singleton.mp hkv with rfl
      refine ⟨?_, ?_, ?_⟩
      · intro u hu
        have h1 : u = "u1" := (Option.some.inj hu).symm
        rw [h1]
        rfl
      · intro pu hpu
        exact absurd hpu (List.not_mem_nil pu)
      · rintro - u hu
        exact Option.noConfusion hu)

/-- C8.  When a schema object carries a string-valued `$ref`, compilation
joins it against the node's effective URI (the `$id`-resolved `id'`),
stores `Reference(joined)` as the node's validator together with `title`
and `description`, and returns — ignoring every other sibling keyword (the
members list is arbitrary here and no condition is built from it, no
further registry write happens); a failed join is `InvalidKeywordValue`,
and a non-string `$ref` is `InvalidKeywordType`. -/
theorem c8_ref_semantics (fuel : Nat) (ora : Oracles) (id : Url)
    (members : List (String × Value)) (depth : Nat) (ctx : Context) (id' : Url)
    (title desc : Option String) (r : String)
    (hcs : checkSchemaField (Value.obj members) members depth = none)
    (hid : getIdE ora (Value.obj members) members id = Except.ok id')
    (ht : getStrField (Value.obj members) members "title" = Except.ok title)
    (hd : getStrField (Value.obj members) members "description" = Except.ok desc) :
    (∀ r', Value.lookup members "$ref" = some (Value.str r) → ora.urlJoin id' r = some r' →
      parseF (fuel + 1) ora id (Value.obj members) depth ctx =
        PRes.ok (ctx.put id' ⟨desc, title, Validator.Reference r'⟩) id') ∧
    (Value.lookup members "$ref" = some (Value.str r) → ora.urlJoin id' r = none →
      parseF (fuel + 1) ora id (Value.obj members) depth ctx =
        PRes.err ctx (FromValueError.InvalidKeywordValue (Value.obj members) "$ref"
          (Value.str r))) ∧
    (∀ val, Value.lookup members "$ref" = some val → (∀ s, val ≠ Value.str s) →
      parseF (fuel + 1) ora id (Value.obj members) depth ctx =
        PRes.err ctx (FromValueError.InvalidKeywordType (Value.obj members) "$ref" val)) := by
  refine ⟨?_, ?_, ?_⟩
  · intro r' hr hj
    simp only [parseF, hcs, hid, ht, hd, hr]
    unfold refStep
    rw [hj]
  · intro hr hj
    simp only [parseF, hcs, hid, ht, hd, hr]
    unfold refStep
    rw [hj]
  · intro val hval hns
    cases val with
    | str s => exact absurd rfl (hns s)
    | null => simp only [parseF, hcs, hid, ht, hd, hval]
    | bool b => simp only [parseF, hcs, hid, ht, hd, hval]
    | num n => simp only [parseF, hcs, hid, ht, hd, hval]
    | arr xs => simp only [parseF, hcs, hid, ht, hd, hval]
    | obj ms => simp only [parseF, hcs, hid, ht, hd, hval]

/-- The document `{"$ref": "#/definitions/a", "maximum": null}`: the
malformed sibling `maximum` would be `InvalidKeywordType` on the
conditions path, but next to `$ref` it is ignored. -/
def docRefWithSibling : Value :=
  Value.obj [("$ref", Value.str "#/definitions/a"), ("maximum", Value.null)]

theorem c8_ref_semantics_witness :
    checkSchemaField docRefWithSibling
      [("$ref", Value.str "#/definitions/a"), ("maximum", Value.null)] 0 = none ∧
    parseF 2 oraId "http://x/s" docRefWithSibling 0 Context.empty =
      PRes.ok (Context.empty.put "http://x/s"
        ⟨none, none, Validator.Reference "#/definitions/a"⟩) "http://x/s" :=
  ⟨rfl,
    (c8_ref_semantics 1 oraId "http://x/s"
      [("$ref", Value.str "#/definitions/a"), ("maximum", Value.null)] 0 Context.empty
      "http://x/s" none none "#/definitions/a" rfl rfl rfl rfl).1 "#/definitions/a" rfl rfl⟩

/-- C10.  `Context::get` is lookup into the puts performed so far — `found`
exactly the last node `put` under the URI, `missing` otherwise — except
for the metaschema URI, where `get` reaches its `unimplemented!()` branch
(a panic) for every registry, stored node or not.  Consequently
`Context::new` never returns normally: it compiles the bundled metaschema
(whose effective URI is the metaschema URI) and then looks that URI up
through `get`, so it panics — via `get`'s unimplemented branch on success,
via `expect` on a compile error, and by propagation on a compile panic. -/
theorem c10_get_unimplemented_and_new_panics :
    (∀ (l : List (Url × JsonSchemaInner)) (u : Url), u ≠ METASCHEMA_URI →
      ((Context.putList Context.empty l).get u = GetOut.missing ↔ lastVal l u = none) ∧
      (∀ n, lastVal l u = some n → (Context.putList Context.empty l).get u = GetOut.found n)) ∧
    (∀ ctx : Context, ctx.get METASCHEMA_URI = GetOut.panic) ∧
    (∀ (fuel : Nat) (ora : Oracles) (doc : Value),
      (∀ ctx' u, parseF fuel ora METASCHEMA_URI doc 0 Context.empty = PRes.ok ctx' u →
        u = METASCHEMA_URI) →
      ∀ c, contextNew fuel ora doc ≠ NewOut.ret c) := by
  refine ⟨?_, ?_, ?_⟩
  · intro l u hu
    have hv : Context.putList Context.empty l u =
        (match lastVal l u with | some n => some n | none => none) := by
      rw [putList_eval]
      cases lastVal l u <;> rfl
    constructor
    · unfold Context.get
      rw [if_neg hu, hv]
      cases h : lastVal l u with
      | some n =>
        exact iff_of_false (fun h' => GetOut.noConfusion h') (fun h' => Option.noConfusion h')
      | none => exact iff_of_true rfl rfl
    · intro n hn
      unfold Context.get
      rw [if_neg hu, hv, hn]
  · intro ctx
    unfold Context.get
    rw [if_pos rfl]
  · intro fuel ora doc hmeta c
    unfold contextNew makeSchema
    cases hp : parseF fuel ora METASCHEMA_URI doc 0 Context.empty with
    | ok ctx' u =>
      have hu := hmeta ctx' u hp
      subst hu
      intro h
      simp [Context.get] at h
    | err ctx' e => intro h; simp at h
    | panic ctx' => intro h; simp at h
    | fuelOut ctx' => intro h; simp at h

theorem c10_get_unimplemented_and_new_panics_witness :
    ("http://other/" ≠ METASCHEMA_URI ∧
      (Context.putList Context.empty [("http://other/", ⟨none, none, Validator.Anything⟩)]).get
        "http://other/" = GetOut.found ⟨none, none, Validator.Anything⟩) ∧
    parseF 2 oraId METASCHEMA_URI METASCHEMA_VALUE 0 Context.empty =
      PRes.ok (Context.empty.put METASCHEMA_URI ⟨none, none, Validator.Conditions []⟩)
        METASCHEMA_URI ∧
    contextNew 2 oraId METASCHEMA_VALUE ≠ NewOut.ret Context.empty :=
  ⟨⟨by decide,
    (c10_get_unimplemented_and_new_panics.1
      [("http://other/", ⟨none, none, Validator.Anything⟩)] "http://other/" (by decide)).2
      ⟨none, none, Validator.Anything⟩ rfl⟩,
   rfl,
   c10_get_unimplemented_and_new_panics.2.2 2 oraId METASCHEMA_VALUE
     (fun ctx' u h => by
       rw [show parseF 2 oraId METASCHEMA_URI METASCHEMA_VALUE 0 Context.empty =
         PRes.ok (Context.empty.put METASCHEMA_URI ⟨none, none, Validator.Conditions []⟩)
           METASCHEMA_URI from rfl] at h
       exact ((PRes.ok.inj h).2).symm)
     Context.empty⟩
